import Mathlib

/-
Verification development for the S1 mod template post-build pipeline
(template/build/events/postbuild.py).

The filesystem is modelled as a finite tree of named entries; a path is the
list of names from the root.  Paths handed to the pipeline are modelled as
already resolved (absolute), matching the calls to Path.resolve in the
script.  Console output (info/warn/ok/step), progress bars and timestamps
have no filesystem effect and are not modelled.  Exceptions that the script
catches with a per-item try/except are modelled by a failure oracle
`fail : Path -> Bool` keyed by the destination path of the guarded block;
`noFail` is the run in which no I/O operation fails.
-/

namespace PostBuild

abbrev Path := List String

/-- A node of the modelled filesystem: a regular file with an abstract
content identifier, or a directory with a list of named child entries
(the list order models the iteration order of Path.iterdir). -/
inductive FSNode where
  | file (content : Nat)
  | dir (entries : List (String × FSNode))

abbrev Entries := List (String × FSNode)

/-- First entry with the given name, if any. -/
def getEntry : Entries → String → Option FSNode
  | [], _ => none
  | (n, v) :: rest, k => if n == k then some v else getEntry rest k

/-- Replace the first entry with the given name, or append a new entry. -/
def setEntry : Entries → String → FSNode → Entries
  | [], k, v => [(k, v)]
  | (n, w) :: rest, k, v => if n == k then (k, v) :: rest else (n, w) :: setEntry rest k v

/-- Node stored at a path, if any. -/
def FSNode.lookup : FSNode → Path → Option FSNode
  | n, [] => some n
  | .dir es, k :: ks =>
      match getEntry es k with
      | some c => c.lookup ks
      | none => none
  | .file _, _ :: _ => none

/-- Write a node at a path, creating missing intermediate directories
(and replacing whatever is on the way, which callers avoid). -/
def FSNode.setPath : FSNode → Path → FSNode → FSNode
  | _, [], v => v
  | .dir es, k :: ks, v =>
      .dir (setEntry es k (FSNode.setPath (match getEntry es k with
        | some c => c
        | none => .dir []) ks v))
  | .file _, k :: ks, v => .dir [(k, FSNode.setPath (.dir []) ks v)]

/-- Remove the entry at a path if present (shutil.rmtree / Path.unlink). -/
def FSNode.removePath : FSNode → Path → FSNode
  | n, [] => n
  | .dir es, [k] => .dir (es.filter (fun e => !(e.1 == k)))
  | .dir es, k :: ks =>
      match getEntry es k with
      | some c => .dir (setEntry es k (c.removePath ks))
      | none => .dir es
  | .file c, _ :: _ => .file c

/-- Path.exists(). -/
def pathExists (fs : FSNode) (p : Path) : Bool :=
  (fs.lookup p).isSome

/-- Path.is_dir(). -/
def isDirAt (fs : FSNode) (p : Path) : Bool :=
  match fs.lookup p with
  | some (.dir _) => true
  | _ => false

/-- Path.is_file(). -/
def isFileAt (fs : FSNode) (p : Path) : Bool :=
  match fs.lookup p with
  | some (.file _) => true
  | _ => false

/-- The entry list of the directory at a path (iterdir snapshot),
empty if the path is not a directory. -/
def entriesAt (fs : FSNode) (p : Path) : Entries :=
  match fs.lookup p with
  | some (.dir es) => es
  | _ => []

/-- Path.name of a modelled absolute path (its last component). -/
def pName (p : Path) : String :=
  p.getLastD ""

/-- isUnder p q: p is an initial segment of q (q lies at or below p). -/
def isUnder : Path → Path → Bool
  | [], _ => true
  | _ :: _, [] => false
  | a :: p, b :: q => a == b && isUnder p q

/-- A failure oracle: which guarded copy/remove blocks raise, keyed by the
destination path of the block. -/
abbrev Fail := Path → Bool

/-- The run in which no I/O operation fails. -/
def noFail : Fail := fun _ => false

/-- ensure_dir / Path.mkdir(parents=True, exist_ok=True).  If the path
already exists nothing happens (Python raises when it exists as a regular
file; theorems below only use states where it is absent or a directory). -/
def ensureDirAt (fs : FSNode) (p : Path) : FSNode :=
  if pathExists fs p then fs else fs.setPath p (.dir [])

/-- shutil.copy2(src, dst): when dst is an existing directory the file is
copied into it under the source file name, otherwise dst itself is
(over)written. -/
def shCopy2 (fs : FSNode) (src dst : Path) : FSNode :=
  match fs.lookup src with
  | some n => if isDirAt fs dst then fs.setPath (dst ++ [pName src]) n else fs.setPath dst n
  | none => fs

/-- shutil.copytree(src, dst); call sites remove an existing dst first. -/
def copytreeAt (fs : FSNode) (src dst : Path) : FSNode :=
  match fs.lookup src with
  | some n => fs.setPath dst n
  | none => fs

/-- str.lower(): String.toLower written over the character list so that
it evaluates inside the kernel. -/
def lowerString (s : String) : String :=
  String.mk (s.data.map Char.toLower)

/-- find_subdir_case_insensitive: name of the first immediate
subdirectory of p whose lowercased name equals the lowercased needle. -/
def findEntryCI : Entries → String → Option String
  | [], _ => none
  | (n, v) :: rest, lname =>
      if (match v with | .dir _ => true | .file _ => false) && lowerString n == lname
      then some n else findEntryCI rest lname

def findSubdirCI (fs : FSNode) (p : Path) (name : String) : Option String :=
  match fs.lookup p with
  | some (.dir es) => findEntryCI es (lowerString name)
  | _ => none

/-- One iteration of the per-item loops in copy_structured_mod: copy a
named child of srcSub into dstDir, replacing an existing directory target;
a raised exception (oracle hit, or shutil.rmtree on a file target) is
caught and leaves the state unchanged. -/
def copyTreeItem (fail : Fail) (fs : FSNode) (srcSub dstDir : Path) (n : String) : FSNode :=
  if fail (dstDir ++ [n]) then fs
  else match fs.lookup (srcSub ++ [n]) with
  | some (.file _) => shCopy2 fs (srcSub ++ [n]) (dstDir ++ [n])
  | some (.dir _) =>
      if pathExists fs (dstDir ++ [n]) then
        if isFileAt fs (dstDir ++ [n]) then fs
        else copytreeAt (fs.removePath (dstDir ++ [n])) (srcSub ++ [n]) (dstDir ++ [n])
      else copytreeAt fs (srcSub ++ [n]) (dstDir ++ [n])
  | none => fs

/-- The body of one named-root phase of copy_structured_mod: iterate over
the snapshot of the entries of srcSub. -/
def copySubdirItems (fail : Fail) (fs : FSNode) (srcSub dstDir : Path) : FSNode :=
  (entriesAt fs srcSub).foldl (fun acc it => copyTreeItem fail acc srcSub dstDir it.1) fs

/-- copy_structured_mod: fan the Mods / Plugins / UserLibs sub-roots of
modPath out to dstMods and its sibling directories. -/
def copyStructuredMod (fail : Fail) (fs : FSNode) (modPath dstMods : Path) : FSNode :=
  if !(pathExists fs modPath) then fs
  else
    let fs1 := match findSubdirCI fs modPath "Mods" with
      | some n => copySubdirItems fail fs (modPath ++ [n]) dstMods
      | none => fs
    let fs2 := match findSubdirCI fs1 modPath "Plugins" with
      | some n =>
          copySubdirItems fail (ensureDirAt fs1 (dstMods.dropLast ++ ["Plugins"]))
            (modPath ++ [n]) (dstMods.dropLast ++ ["Plugins"])
      | none => fs1
    match findSubdirCI fs2 modPath "UserLibs" with
      | some n =>
          copySubdirItems fail (ensureDirAt fs2 (dstMods.dropLast ++ ["UserLibs"]))
            (modPath ++ [n]) (dstMods.dropLast ++ ["UserLibs"])
      | none => fs2

/-- has_structure in copy_mod_item. -/
def hasStructureAt (fs : FSNode) (p : Path) : Bool :=
  (findSubdirCI fs p "Mods").isSome || (findSubdirCI fs p "Plugins").isSome
    || (findSubdirCI fs p "UserLibs").isSome

/-- The skip test used for structured mods: some entry of the Mods
sub-root already exists in the destination mods directory. -/
def modsRootBlocked (fs : FSNode) (modPath dstDir : Path) : Bool :=
  match findSubdirCI fs modPath "Mods" with
  | some mn => (entriesAt fs (modPath ++ [mn])).any (fun it => pathExists fs (dstDir ++ [it.1]))
  | none => false

/-- The destination-occupancy test copy_mod_item actually performs for a
source, by layout: target-name exists for a single file or flat folder,
modsRootBlocked for a structured tree. -/
def destBlocked (fs : FSNode) (modPath dstDir : Path) : Bool :=
  if isFileAt fs modPath then pathExists fs (dstDir ++ [pName modPath])
  else if hasStructureAt fs modPath then modsRootBlocked fs modPath dstDir
  else pathExists fs (dstDir ++ [pName modPath])

/-- The source is missing or its destination-occupancy test holds, so a
skip_if_exists copy of it is a no-op. -/
def settledB (fs : FSNode) (modPath dstDir : Path) : Bool :=
  !(pathExists fs modPath) || destBlocked fs modPath dstDir

/-- copy_mod_item: returns the new state and True when copied, False when
skipped or failed.  The flat-folder branch returns False without copying
when the target exists as a regular file, because shutil.rmtree raises
there and the exception is caught. -/
def copyModItem (fail : Fail) (fs : FSNode) (modPath dstDir : Path)
    (skipIfExists : Bool) : FSNode × Bool :=
  if !(pathExists fs modPath) then (fs, false)
  else if isFileAt fs modPath then
    let target := dstDir ++ [pName modPath]
    if skipIfExists && pathExists fs target then (fs, false)
    else if fail target then (fs, false)
    else (shCopy2 fs modPath target, true)
  else if hasStructureAt fs modPath then
    if skipIfExists && modsRootBlocked fs modPath dstDir then (fs, false)
    else (copyStructuredMod fail fs modPath dstDir, true)
  else
    let target := dstDir ++ [pName modPath]
    if skipIfExists && pathExists fs target then (fs, false)
    else if pathExists fs target && isFileAt fs target then (fs, false)
    else if fail target then (fs, false)
    else (copytreeAt (if pathExists fs target then fs.removePath target else fs) modPath target, true)

/-- copy_item: unconditional copy of the primary artifact, with no
try/except and no skip test.  (When the source is a directory and the
target exists as a regular file, shutil.rmtree raises and the script
crashes; theorems stating completed runs assume a file artifact.) -/
def copyItem (fs : FSNode) (src dstDir : Path) : FSNode :=
  let target := dstDir ++ [pName src]
  if isDirAt fs src then
    copytreeAt (if pathExists fs target then fs.removePath target else fs) src target
  else shCopy2 fs src target

/-- clean_mods_dir: remove every entry of the mods directory, skipping
entries whose removal raises. -/
def cleanModsDir (fail : Fail) (fs : FSNode) (p : Path) : FSNode :=
  if !(pathExists fs p) then fs
  else
    (entriesAt fs p).foldl
      (fun acc it => if fail (p ++ [it.1]) then acc else acc.removePath (p ++ [it.1])) fs

/-- copy_user_mods: pre-filter the list to existing paths (warning and
skipping the rest), then copy each with skip_if_exists = not force_copy,
counting successes. -/
def copyUserMods (fail : Fail) (fs : FSNode) (modList : List Path) (dstDir : Path)
    (forceCopy : Bool) : FSNode × Nat :=
  let valid := modList.filter (fun p => pathExists fs p)
  valid.foldl
    (fun acc p =>
      let r := copyModItem fail acc.1 p dstDir (!forceCopy)
      (r.1, acc.2 + (if r.2 then 1 else 0)))
    (fs, 0)

/-- copy_multiplayer_mods: the multiplayer mod goes through copy_mod_item
into the mods directory; the starter script is copied (honoring
skip/force) into the parent of the mods directory. -/
def copyMultiplayerMods (fail : Fail) (fs : FSNode) (mpMod mpStarter : Path)
    (dstDir : Path) (forceCopy : Bool) : FSNode × Nat :=
  let st1 :=
    if pathExists fs mpMod then
      let r := copyModItem fail fs mpMod dstDir (!forceCopy)
      (r.1, if r.2 then 1 else 0)
    else (fs, 0)
  if pathExists st1.1 mpStarter then
    let starterDst := dstDir.dropLast ++ [pName mpStarter]
    if !(pathExists st1.1 starterDst) || forceCopy then
      if fail starterDst then st1
      else (shCopy2 st1.1 mpStarter starterDst, st1.2 + 1)
    else st1
  else st1

/-- copy_library_mods: each optional library path goes through
copy_mod_item into the mods directory. -/
def copyOptLib (fail : Fail) (st : FSNode × Nat) (p? : Option Path) (dstDir : Path)
    (forceCopy : Bool) : FSNode × Nat :=
  match p? with
  | none => st
  | some p =>
      let r := copyModItem fail st.1 p dstDir (!forceCopy)
      (r.1, st.2 + (if r.2 then 1 else 0))

def copyLibraryMods (fail : Fail) (fs : FSNode) (s1api ue : Option Path)
    (dstDir : Path) (forceCopy : Bool) : FSNode × Nat :=
  copyOptLib fail (copyOptLib fail (fs, 0) s1api dstDir forceCopy) ue dstDir forceCopy

/-- The layout classification implicit in the branch order of
copy_mod_item. -/
inductive Layout where
  | notFound
  | singleFile
  | structuredTree
  | flatFolder
deriving DecidableEq

def classify (fs : FSNode) (p : Path) : Layout :=
  if !(pathExists fs p) then .notFound
  else if isFileAt fs p then .singleFile
  else if hasStructureAt fs p then .structuredTree
  else .flatFolder

/-- Outcome of wait_for_exit. -/
inductive WaitResult where
  | stopped
  | stillRunning
deriving DecidableEq

/-- Number of poll iterations of wait_for_exit: the loop body runs at
times 0, 0.2, 0.4, ... strictly below the deadline waitSeconds + 2.0
(idealized time: the presence check is instantaneous and each sleep lasts
exactly 0.2 seconds). -/
def pollLimit (waitSeconds : Rat) : Nat :=
  (Int.ceil (5 * (waitSeconds + 2))).toNat

/-- The polling loop of wait_for_exit over a presence oracle
(is_running at the k-th poll); returns the outcome and the index of the
poll at which it returned (= number of 0.2 s sleeps taken before
success, or the full poll budget on timeout). -/
def waitLoop (present : Nat → Bool) : Nat → Nat → WaitResult × Nat
  | k, 0 => (.stillRunning, k)
  | k, fuel + 1 => if present k then waitLoop present (k + 1) fuel else (.stopped, k)

def waitForExit (present : Nat → Bool) (waitSeconds : Rat) : WaitResult × Nat :=
  waitLoop present 0 (pollLimit waitSeconds)

/-- The command-line configuration of main, with paths already resolved.
useWine is (not on Windows); wineBinaryFound models the existence check of
the wine binary on the host. -/
structure Config where
  target : Path
  modsDir : Path
  exeName : String
  mods : List Path
  mpMod : Option Path
  mpStarter : Option Path
  s1apiPath : Option Path
  unityExplorerPath : Option Path
  waitSeconds : Rat
  launchDelay : Rat
  debug : Bool
  clean : Bool
  noLaunch : Bool
  forceCopy : Bool
  showTimestamps : Bool
  useWine : Bool
  wineBinaryFound : Bool

/-- Externally visible pipeline actions, in order of occurrence. -/
inductive Action where
  | killed (w : WaitResult)
  | cleaned
  | launched
  | launchedMp
deriving DecidableEq

/-- Result of main: fatal exit with a nonzero code before any action, or a
completed run with the final tree, the total copied count and the action
trace. -/
inductive RunResult where
  | fatal (code : Nat) (fs : FSNode) (trace : List Action)
  | done (fs : FSNode) (copied : Nat) (trace : List Action)

/-- main: validate the target, the multiplayer pairing and the wine
binary, then ensure the mods directory, kill the game (kw is the wait
outcome), optionally clean, copy the three add-on families, copy the
primary artifact unconditionally, and launch unless suppressed. -/
def mainRun (fail : Fail) (kw : WaitResult) (cfg : Config) (fs : FSNode) : RunResult :=
  if !(pathExists fs cfg.target) then .fatal 1 fs []
  else if cfg.mpMod.isSome && cfg.mpStarter.isNone then .fatal 1 fs []
  else if cfg.mpStarter.isSome && cfg.mpMod.isNone then .fatal 1 fs []
  else if cfg.useWine && !cfg.wineBinaryFound then .fatal 1 fs []
  else
    let fsA := ensureDirAt fs cfg.modsDir
    let fsB := if cfg.clean then cleanModsDir fail fsA cfg.modsDir else fsA
    let tr0 := Action.killed kw :: (if cfg.clean then [Action.cleaned] else [])
    let r1 := copyUserMods fail fsB cfg.mods cfg.modsDir cfg.forceCopy
    let r2 := match cfg.mpMod, cfg.mpStarter with
      | some mm, some ms => copyMultiplayerMods fail r1.1 mm ms cfg.modsDir cfg.forceCopy
      | _, _ => (r1.1, 0)
    let r3 := copyLibraryMods fail r2.1 cfg.s1apiPath cfg.unityExplorerPath cfg.modsDir cfg.forceCopy
    let fsC := copyItem r3.1 cfg.target cfg.modsDir
    let total := r1.2 + r2.2 + r3.2 + 1
    if cfg.noLaunch then .done fsC total tr0
    else if cfg.mpMod.isSome && cfg.mpStarter.isSome then
      .done fsC total (tr0 ++ [Action.launchedMp])
    else .done fsC total (tr0 ++ [Action.launched])

/-- The pipeline with the termination wait wired in: the wait outcome is
computed from the presence oracle and otherwise ignored by main. -/
def fullRun (fail : Fail) (present : Nat → Bool) (cfg : Config) (fs : FSNode) : RunResult :=
  mainRun fail (waitForExit present cfg.waitSeconds).1 cfg fs

/-- Final filesystem of a run result. -/
def RunResult.fsOf : RunResult → FSNode
  | .fatal _ fs _ => fs
  | .done fs _ _ => fs

/-- Copied-item count of a run result (zero for a fatal exit). -/
def RunResult.copiedOf : RunResult → Nat
  | .fatal _ _ _ => 0
  | .done _ c _ => c

/-- Action trace of a run result. -/
def RunResult.traceOf : RunResult → List Action
  | .fatal _ _ tr => tr
  | .done _ _ tr => tr

/-- Whether the run completed (did not exit fatally). -/
def RunResult.isDone : RunResult → Bool
  | .fatal _ _ _ => false
  | .done _ _ _ => true

/-- The Mods sub-root of a source exists and has at least one entry, so a
completed structured copy leaves a skip witness at the destination. -/
def modsNonemptyB (fs : FSNode) (s : Path) : Bool :=
  match findSubdirCI fs s "Mods" with
  | some mn => !(entriesAt fs (s ++ [mn])).isEmpty
  | none => false

/-- The source path is incomparable with the game directory par (neither
lies below the other), so pipeline writes never change the source and the
source never aliases the destination area. -/
def OffPar (par s : Path) : Prop :=
  isUnder par s = false ∧ isUnder s par = false

/-- All optional and repeatable add-on sources of a configuration (user
mods, multiplayer mod, library mods) that are copied via copy_mod_item. -/
def addonSources (cfg : Config) : List Path :=
  cfg.mods ++ cfg.mpMod.toList ++ cfg.s1apiPath.toList ++ cfg.unityExplorerPath.toList

/-- A source that pipeline writes cannot alter and whose structured layout,
if any, has a populated Mods sub-root. -/
def GoodSrc (fs : FSNode) (par s : Path) : Prop :=
  OffPar par s ∧ (hasStructureAt fs s = true → modsNonemptyB fs s = true)

instance (par s : Path) : Decidable (OffPar par s) := by
  unfold OffPar
  infer_instance

instance (fs : FSNode) (par s : Path) : Decidable (GoodSrc fs par s) := by
  unfold GoodSrc
  infer_instance

/-- StepOK par fs fs2: the step from fs to fs2 leaves every path
incomparable with the game directory par untouched and keeps alive every
existing path at or below par of depth at most par + 2 (the depth of the
entries written inside the mods and sibling directories). -/
def StepOK (par : Path) (fs fs2 : FSNode) : Prop :=
  (∀ q, isUnder par q = false → isUnder q par = false → fs2.lookup q = fs.lookup q) ∧
  (∀ q, isUnder par q = true → q.length ≤ par.length + 2 → pathExists fs q = true →
    pathExists fs2 q = true)

/-- The step from fs to fs2 creates no entry at the path q: if q is absent
before, it is absent after.  Used to state that a run never creates the
Plugins / UserLibs sibling directories it does not populate. -/
def KeepsAbsent (q : Path) (fs fs2 : FSNode) : Prop :=
  pathExists fs q = false → pathExists fs2 q = false

/-- One sibling phase of copy_structured_mod (the Plugins or UserLibs
stanza): if the source has a matching sub-root, create the sibling
directory and copy the sub-root entries into it; otherwise do nothing. -/
def sibPhase (fail : Fail) (s par : Path) (sib : String) (g : FSNode) : FSNode :=
  match findSubdirCI g s sib with
  | some n => copySubdirItems fail (ensureDirAt g (par ++ [sib])) (s ++ [n]) (par ++ [sib])
  | none => g

/-- The starter script is absent, or its copy in the game directory is in
place, so the starter stage of a later run skips. -/
def starterReadyB (fs : FSNode) (ms par : Path) : Bool :=
  !(pathExists fs ms) || pathExists fs (par ++ [pName ms])

/-- The action trace a completed run emits, as a function of the
configuration and the recorded wait outcome. -/
def runTrace (cfg : Config) (kw : WaitResult) : List Action :=
  let tr0 := Action.killed kw :: (if cfg.clean then [Action.cleaned] else [])
  if cfg.noLaunch then tr0
  else if cfg.mpMod.isSome && cfg.mpStarter.isSome then tr0 ++ [Action.launchedMp]
  else tr0 ++ [Action.launched]

/-- The same trace with the let inlined, convenient for equational
reasoning about completed runs. -/
def traceExpr (cfg : Config) (kw : WaitResult) : List Action :=
  if cfg.noLaunch then Action.killed kw :: (if cfg.clean then [Action.cleaned] else [])
  else if cfg.mpMod.isSome && cfg.mpStarter.isSome then
    (Action.killed kw :: (if cfg.clean then [Action.cleaned] else [])) ++ [Action.launchedMp]
  else (Action.killed kw :: (if cfg.clean then [Action.cleaned] else [])) ++ [Action.launched]

/-! ## Concrete example data

A small world with a built artifact, several add-on layouts and a game
directory, used by the closed witnesses and counterexamples below. -/

def exFS : FSNode := .dir [
  ("build", .dir [("MyMod.dll", .file 1)]),
  ("addons", .dir [
     ("AddonA", .dir [("Mods", .dir [("Foo.dll", .file 2)]),
                      ("Plugins", .dir [("Bar.dll", .file 3)])]),
     ("PluginOnly", .dir [("plugins", .dir [("Baz.dll", .file 4)])]),
     ("Flat", .dir [("a.txt", .file 5)]),
     ("Single.dll", .file 6)]),
  ("game", .dir [("Mods", .dir [])])]

def exCfg : Config := {
  target := ["build", "MyMod.dll"]
  modsDir := ["game", "Mods"]
  exeName := "S1.exe"
  mods := [["addons", "AddonA"], ["addons", "Flat"], ["addons", "Single.dll"]]
  mpMod := none
  mpStarter := none
  s1apiPath := none
  unityExplorerPath := none
  waitSeconds := 1
  launchDelay := 0
  debug := false
  clean := false
  noLaunch := false
  forceCopy := false
  showTimestamps := false
  useWine := false
  wineBinaryFound := false }

/-- The same run asked to copy only the structured add-on whose single
sub-root is a lowercase plugins directory: the skip test of
copy_mod_item inspects only a Mods sub-root, so this add-on is re-copied
on every run. -/
def exCfgP : Config := { exCfg with mods := [["addons", "PluginOnly"]] }

/-- A configuration supplying the multiplayer mod without the starter. -/
def exCfgMpOnly : Config := { exCfg with mpMod := some ["addons", "AddonA"] }

/-- A game state whose Plugins sibling already holds a stale copy of the
plugins-only add-on payload. -/
def exFSP : FSNode := .dir [
  ("addons", .dir [
     ("PluginOnly", .dir [("plugins", .dir [("Baz.dll", .file 4)])])]),
  ("game", .dir [("Mods", .dir []), ("Plugins", .dir [("Baz.dll", .file 9)])])]

/-- A game state in which the destination name of the primary artifact is
occupied by a directory. -/
def exFSD : FSNode := .dir [
  ("build", .dir [("MyMod.dll", .file 1)]),
  ("game", .dir [("Mods", .dir [("MyMod.dll", .dir [("stale", .file 7)])])])]

/-! ## Entry-list lemmas -/

theorem getEntry_setEntry_self (es : Entries) (k : String) (v : FSNode) :
    getEntry (setEntry es k v) k = some v := by
  induction es with
  | nil => simp [setEntry, getEntry]
  | cons e rest ih =>
      by_cases h : e.1 = k
      · simp [setEntry, getEntry, h]
      · simp [setEntry, getEntry, h, ih]

theorem getEntry_setEntry_ne (es : Entries) {k k2 : String} (h : k ≠ k2) (v : FSNode) :
    getEntry (setEntry es k v) k2 = getEntry es k2 := by
  induction es with
  | nil => simp [setEntry, getEntry, h]
  | cons e rest ih =>
      obtain ⟨n, w⟩ := e
      by_cases he : n = k
      · subst he
        simp only [setEntry, beq_self_eq_true, if_true]
        simp [getEntry, h]
      · simp only [setEntry]
        rw [if_neg (by simpa using he)]
        simp only [getEntry]
        by_cases he2 : n = k2
        · simp [he2]
        · simp [he2, ih]

theorem setEntry_eq_self {es : Entries} {k : String} {v : FSNode}
    (h : getEntry es k = some v) : setEntry es k v = es := by
  induction es with
  | nil => simp [getEntry] at h
  | cons e rest ih =>
      obtain ⟨n, w⟩ := e
      by_cases he : n = k
      · subst he
        simp only [getEntry, beq_self_eq_true, if_true] at h
        cases h
        simp [setEntry]
      · simp only [getEntry] at h
        rw [if_neg (by simpa using he)] at h
        simp only [setEntry]
        rw [if_neg (by simpa using he), ih h]

theorem getEntry_removeFilter_ne (es : Entries) {k k2 : String} (h : k ≠ k2) :
    getEntry (es.filter (fun e => !(e.1 == k))) k2 = getEntry es k2 := by
  induction es with
  | nil => simp
  | cons e rest ih =>
      by_cases he : e.1 = k
      · rw [List.filter_cons_of_neg (by simp [he])]
        rw [ih, getEntry, if_neg (by simp [he, h])]
      · rw [List.filter_cons_of_pos (by simpa using he)]
        by_cases he2 : e.1 = k2
        · simp [getEntry, he2]
        · rw [getEntry, getEntry, if_neg (by simpa using he2), if_neg (by simpa using he2), ih]

/-! ## Path-order lemmas -/

theorem isUnder_iff_exists {p q : Path} : isUnder p q = true ↔ ∃ t, q = p ++ t := by
  induction p generalizing q with
  | nil => simp [isUnder]
  | cons a p ih =>
      cases q with
      | nil => simp [isUnder]
      | cons b q =>
          simp only [isUnder, Bool.and_eq_true, beq_iff_eq]
          constructor
          · rintro ⟨rfl, h⟩
            obtain ⟨t, rfl⟩ := ih.mp h
            exact ⟨t, rfl⟩
          · rintro ⟨t, ht⟩
            cases ht
            exact ⟨rfl, ih.mpr ⟨t, rfl⟩⟩

theorem isUnder_refl (p : Path) : isUnder p p = true :=
  isUnder_iff_exists.mpr ⟨[], by simp⟩

theorem isUnder_append (p t : Path) : isUnder p (p ++ t) = true :=
  isUnder_iff_exists.mpr ⟨t, rfl⟩

theorem isUnder_length_le {p q : Path} (h : isUnder p q = true) : p.length ≤ q.length := by
  obtain ⟨t, rfl⟩ := isUnder_iff_exists.mp h
  simp

theorem isUnder_antisymm {p q : Path} (h1 : isUnder p q = true) (h2 : q.length ≤ p.length) :
    p = q := by
  obtain ⟨t, rfl⟩ := isUnder_iff_exists.mp h1
  have hlen := List.length_append p t
  have ht : t.length = 0 := by omega
  rw [List.length_eq_zero] at ht
  simp [ht]

theorem isUnder_trans {p q r : Path} (h1 : isUnder p q = true) (h2 : isUnder q r = true) :
    isUnder p r = true := by
  obtain ⟨t, rfl⟩ := isUnder_iff_exists.mp h1
  obtain ⟨u, rfl⟩ := isUnder_iff_exists.mp h2
  simpa using isUnder_append p (t ++ u)

theorem isUnder_false_of_length {p q : Path} (h : q.length < p.length) :
    isUnder p q = false := by
  cases hh : isUnder p q
  · rfl
  · have := isUnder_length_le hh
    omega

theorem isUnder_total {p q r : Path} (h1 : isUnder p r = true) (h2 : isUnder q r = true) :
    isUnder p q = true ∨ isUnder q p = true := by
  induction r generalizing p q with
  | nil =>
      cases p with
      | nil => exact Or.inl (by simp [isUnder])
      | cons a p => simp [isUnder] at h1
  | cons c r ih =>
      cases p with
      | nil => exact Or.inl (by simp [isUnder])
      | cons a p =>
          cases q with
          | nil => exact Or.inr (by simp [isUnder])
          | cons b q =>
              simp only [isUnder, Bool.and_eq_true, beq_iff_eq] at h1 h2
              obtain ⟨rfl, h1⟩ := h1
              obtain ⟨rfl, h2⟩ := h2
              rcases ih h1 h2 with h | h
              · exact Or.inl (by simp [isUnder, h])
              · exact Or.inr (by simp [isUnder, h])

/-! ## Filesystem tree lemmas -/

theorem lookup_nil (fs : FSNode) : fs.lookup [] = some fs := by
  cases fs <;> rfl

theorem lookup_dir_cons (es : Entries) (k : String) (ks : Path) :
    (FSNode.dir es).lookup (k :: ks) = (getEntry es k).bind (fun c => c.lookup ks) := by
  simp only [FSNode.lookup]
  cases getEntry es k <;> simp

theorem lookup_file_cons (c : Nat) (k : String) (ks : Path) :
    (FSNode.file c).lookup (k :: ks) = none := rfl

theorem lookup_emptyDir {q : Path} (h : q ≠ []) : (FSNode.dir []).lookup q = none := by
  cases q with
  | nil => exact absurd rfl h
  | cons b qs => rw [lookup_dir_cons]; simp [getEntry]

theorem lookup_append (fs : FSNode) (p t : Path) :
    fs.lookup (p ++ t) = (fs.lookup p).bind (fun n => n.lookup t) := by
  induction p generalizing fs with
  | nil => simp [lookup_nil]
  | cons k ks ih =>
      cases fs with
      | file c => simp [lookup_file_cons]
      | dir es =>
          rw [List.cons_append, lookup_dir_cons, lookup_dir_cons]
          cases getEntry es k with
          | none => simp
          | some c => simp [ih]

theorem setPath_dir_cons (es : Entries) (k : String) (ks : Path) (v : FSNode) :
    (FSNode.dir es).setPath (k :: ks) v =
      .dir (setEntry es k (((getEntry es k).getD (.dir [])).setPath ks v)) := by
  simp only [FSNode.setPath]
  cases getEntry es k <;> simp

theorem setPath_file_cons (c : Nat) (k : String) (ks : Path) (v : FSNode) :
    (FSNode.file c).setPath (k :: ks) v = .dir [(k, (FSNode.dir []).setPath ks v)] := rfl

theorem lookup_setPath_self (fs v : FSNode) (p : Path) :
    (fs.setPath p v).lookup p = some v := by
  induction p generalizing fs with
  | nil => simp [FSNode.setPath, lookup_nil]
  | cons k ks ih =>
      cases fs with
      | dir es =>
          rw [setPath_dir_cons, lookup_dir_cons, getEntry_setEntry_self]
          simp [ih]
      | file c =>
          rw [setPath_file_cons, lookup_dir_cons]
          simp [getEntry, ih]

theorem lookup_setPath_off (fs v : FSNode) {p q : Path}
    (h1 : isUnder p q = false) (h2 : isUnder q p = false) :
    (fs.setPath p v).lookup q = fs.lookup q := by
  induction q generalizing fs p with
  | nil => simp [isUnder] at h2
  | cons b qs ih =>
      cases p with
      | nil => simp [isUnder] at h1
      | cons a ps =>
          have hqs : qs ≠ [] ∨ a ≠ b := by
            by_cases hab : a = b
            · subst hab
              left
              intro hc
              subst hc
              simp [isUnder] at h2
            · exact Or.inr hab
          by_cases hab : a = b
          · subst hab
            have h1' : isUnder ps qs = false := by simpa [isUnder] using h1
            have h2' : isUnder qs ps = false := by simpa [isUnder] using h2
            cases fs with
            | dir es =>
                rw [setPath_dir_cons, lookup_dir_cons, lookup_dir_cons, getEntry_setEntry_self]
                cases hge : getEntry es a with
                | some c => simp [ih c h1' h2']
                | none =>
                    have hq : qs ≠ [] := by
                      intro hc
                      subst hc
                      simp [isUnder] at h2'
                    simp [ih (FSNode.dir []) h1' h2', lookup_emptyDir hq]
            | file c =>
                rw [setPath_file_cons, lookup_dir_cons, lookup_file_cons]
                have hq : qs ≠ [] := by
                  intro hc
                  subst hc
                  simp [isUnder] at h2
                simp [getEntry, ih (FSNode.dir []) (by simpa [isUnder] using h1)
                  (by simpa [isUnder] using h2), lookup_emptyDir hq]
          · cases fs with
            | dir es =>
                rw [setPath_dir_cons, lookup_dir_cons, lookup_dir_cons,
                  getEntry_setEntry_ne _ hab]
            | file c =>
                rw [setPath_file_cons, lookup_dir_cons, lookup_file_cons]
                simp [getEntry, hab]

theorem lookup_setPath_extend (fs v : FSNode) (q : Path) (x : String) (rest : Path) :
    ∃ es2, (fs.setPath (q ++ x :: rest) v).lookup q = some (.dir es2) := by
  induction q generalizing fs with
  | nil =>
      cases fs with
      | dir es => exact ⟨_, by rw [List.nil_append, setPath_dir_cons, lookup_nil]⟩
      | file c => exact ⟨_, by rw [List.nil_append, setPath_file_cons, lookup_nil]⟩
  | cons b qs ih =>
      cases fs with
      | dir es =>
          rw [List.cons_append, setPath_dir_cons, lookup_dir_cons, getEntry_setEntry_self]
          simpa using ih ((getEntry es b).getD (.dir []))
      | file c =>
          rw [List.cons_append, setPath_file_cons, lookup_dir_cons]
          simpa [getEntry] using ih (FSNode.dir [])

theorem setPath_eq_of_lookup {fs v : FSNode} {p : Path} (h : fs.lookup p = some v) :
    fs.setPath p v = fs := by
  induction p generalizing fs with
  | nil =>
      rw [lookup_nil] at h
      injection h with h2
      subst h2
      cases fs <;> rfl
  | cons k ks ih =>
      cases fs with
      | file c => rw [lookup_file_cons] at h; cases h
      | dir es =>
          rw [lookup_dir_cons] at h
          cases hge : getEntry es k with
          | none => rw [hge] at h; cases h
          | some c =>
              rw [hge] at h
              simp only [Option.some_bind] at h
              rw [setPath_dir_cons, hge]
              simp only [Option.getD_some]
              rw [ih h, setEntry_eq_self hge]

theorem removePath_dir_single (es : Entries) (k : String) :
    (FSNode.dir es).removePath [k] = .dir (es.filter fun e => !(e.1 == k)) := rfl

theorem removePath_dir_pair (es : Entries) (k k2 : String) (ks : Path) :
    (FSNode.dir es).removePath (k :: k2 :: ks) =
      match getEntry es k with
      | some c => .dir (setEntry es k (c.removePath (k2 :: ks)))
      | none => .dir es := rfl

theorem lookup_removePath_off (fs : FSNode) {p q : Path}
    (h1 : isUnder p q = false) (h2 : isUnder q p = false) :
    (fs.removePath p).lookup q = fs.lookup q := by
  induction q generalizing fs p with
  | nil => simp [isUnder] at h2
  | cons b qs ih =>
      cases p with
      | nil => simp [isUnder] at h1
      | cons a ps =>
          cases fs with
          | file c => cases ps <;> rfl
          | dir es =>
              cases ps with
              | nil =>
                  have hab : a ≠ b := by
                    intro hc
                    subst hc
                    simp [isUnder] at h1
                  show (FSNode.dir (es.filter (fun e => !(e.1 == a)))).lookup (b :: qs) = _
                  rw [lookup_dir_cons, lookup_dir_cons, getEntry_removeFilter_ne _ hab]
              | cons a2 ps2 =>
                  rw [removePath_dir_pair]
                  cases hge : getEntry es a with
                  | none => rfl
                  | some c =>
                      by_cases hab : a = b
                      · subst hab
                        have h1' : isUnder (a2 :: ps2) qs = false := by
                          simpa [isUnder] using h1
                        have h2' : isUnder qs (a2 :: ps2) = false := by
                          simpa [isUnder] using h2
                        rw [lookup_dir_cons, lookup_dir_cons, getEntry_setEntry_self, hge]
                        simp [ih c h1' h2']
                      · rw [lookup_dir_cons, lookup_dir_cons, getEntry_setEntry_ne _ hab]

theorem pathExists_removePath_not_ext (fs : FSNode) {p q : Path}
    (h1 : isUnder p q = false) :
    pathExists (fs.removePath p) q = pathExists fs q := by
  induction q generalizing fs p with
  | nil => simp [pathExists, lookup_nil]
  | cons b qs ih =>
      cases p with
      | nil => simp [isUnder] at h1
      | cons a ps =>
          cases fs with
          | file c => cases ps <;> rfl
          | dir es =>
              cases ps with
              | nil =>
                  have hab : a ≠ b := by
                    intro hc
                    subst hc
                    simp [isUnder] at h1
                  show pathExists (FSNode.dir (es.filter (fun e => !(e.1 == a)))) (b :: qs) = _
                  unfold pathExists
                  rw [lookup_dir_cons, lookup_dir_cons, getEntry_removeFilter_ne _ hab]
              | cons a2 ps2 =>
                  rw [removePath_dir_pair]
                  cases hge : getEntry es a with
                  | none => rfl
                  | some c =>
                      by_cases hab : a = b
                      · subst hab
                        have h1' : isUnder (a2 :: ps2) qs = false := by
                          simpa [isUnder] using h1
                        unfold pathExists
                        rw [lookup_dir_cons, lookup_dir_cons, getEntry_setEntry_self, hge]
                        simpa [pathExists] using ih c h1'
                      · unfold pathExists
                        rw [lookup_dir_cons, lookup_dir_cons, getEntry_setEntry_ne _ hab]

theorem pathExists_setPath_under {fs v : FSNode} {p q : Path} (h : isUnder q p = true) :
    pathExists (fs.setPath p v) q = true := by
  obtain ⟨t, rfl⟩ := isUnder_iff_exists.mp h
  cases t with
  | nil => simp [pathExists, lookup_setPath_self]
  | cons x rest =>
      obtain ⟨es2, hes⟩ := lookup_setPath_extend fs v q x rest
      simp [pathExists, hes]

theorem pathExists_setPath_keep {fs v : FSNode} {p q : Path} (hlen : q.length ≤ p.length)
    (hq : pathExists fs q = true) : pathExists (fs.setPath p v) q = true := by
  by_cases hu : isUnder q p = true
  · exact pathExists_setPath_under hu
  · have hpq : isUnder p q = false := by
      cases hh : isUnder p q
      · rfl
      · exact absurd (isUnder_antisymm hh hlen ▸ isUnder_refl q) hu
    unfold pathExists
    rw [lookup_setPath_off fs v hpq (Bool.not_eq_true _ ▸ hu : isUnder q p = false)]
    exact hq

theorem pathExists_replaceAt {fs v : FSNode} {p q : Path} (hlen : q.length ≤ p.length)
    (hq : pathExists fs q = true) :
    pathExists ((fs.removePath p).setPath p v) q = true := by
  by_cases hu : isUnder q p = true
  · exact pathExists_setPath_under hu
  · have hpq : isUnder p q = false := by
      cases hh : isUnder p q
      · rfl
      · exact absurd (isUnder_antisymm hh hlen ▸ isUnder_refl q) hu
    have hsurv : pathExists (fs.removePath p) q = true := by
      rw [pathExists_removePath_not_ext fs hpq]
      exact hq
    exact pathExists_setPath_keep hlen hsurv

theorem pathExists_ancestor {fs : FSNode} {p q : Path} (hu : isUnder p q = true)
    (h : pathExists fs q = true) : pathExists fs p = true := by
  obtain ⟨t, rfl⟩ := isUnder_iff_exists.mp hu
  unfold pathExists at h ⊢
  rw [lookup_append] at h
  cases hl : fs.lookup p with
  | none => rw [hl] at h; simp at h
  | some n => rfl

theorem isDirAt_of_strict_child {fs : FSNode} {p : Path} {x : String} {rest : Path}
    (h : pathExists fs (p ++ x :: rest) = true) : isDirAt fs p = true := by
  unfold pathExists at h
  rw [lookup_append] at h
  cases hl : fs.lookup p with
  | none => rw [hl] at h; simp at h
  | some n =>
      cases n with
      | file c => rw [hl] at h; simp [lookup_file_cons] at h
      | dir es => simp [isDirAt, hl]

theorem isDirAt_congr {fs fs2 : FSNode} {q : Path} (h : fs2.lookup q = fs.lookup q) :
    isDirAt fs2 q = isDirAt fs q := by
  unfold isDirAt
  rw [h]

theorem isFileAt_congr {fs fs2 : FSNode} {q : Path} (h : fs2.lookup q = fs.lookup q) :
    isFileAt fs2 q = isFileAt fs q := by
  unfold isFileAt
  rw [h]

theorem pathExists_congr {fs fs2 : FSNode} {q : Path} (h : fs2.lookup q = fs.lookup q) :
    pathExists fs2 q = pathExists fs q := by
  unfold pathExists
  rw [h]

theorem isDirAt_iff_lookup {fs : FSNode} {q : Path} :
    isDirAt fs q = true ↔ ∃ es, fs.lookup q = some (.dir es) := by
  unfold isDirAt
  cases h : fs.lookup q with
  | none => simp
  | some n => cases n <;> simp

theorem isFileAt_iff_lookup {fs : FSNode} {q : Path} :
    isFileAt fs q = true ↔ ∃ c, fs.lookup q = some (.file c) := by
  unfold isFileAt
  cases h : fs.lookup q with
  | none => simp
  | some n => cases n <;> simp

theorem removePath_nil (fs : FSNode) : fs.removePath [] = fs := by
  cases fs <;> rfl

theorem removePath_shape (fs : FSNode) (p q : Path) :
    (fs.removePath p).lookup q = fs.lookup q ∨
    (fs.removePath p).lookup q = none ∨
    (∃ es es2, fs.lookup q = some (.dir es) ∧
      (fs.removePath p).lookup q = some (.dir es2)) := by
  induction q generalizing fs p with
  | nil =>
      cases p with
      | nil => rw [removePath_nil]; exact Or.inl rfl
      | cons a ps =>
          cases fs with
          | file c => cases ps <;> exact Or.inl rfl
          | dir es =>
              cases ps with
              | nil =>
                  exact Or.inr (Or.inr ⟨es, es.filter fun e => !(e.1 == a),
                    by rw [lookup_nil], by rw [lookup_nil, removePath_dir_single]⟩)
              | cons a2 ps2 =>
                  rw [removePath_dir_pair]
                  cases getEntry es a with
                  | none => exact Or.inr (Or.inr ⟨es, es, by rw [lookup_nil], by rw [lookup_nil]⟩)
                  | some c =>
                      exact Or.inr (Or.inr ⟨es, setEntry es a (c.removePath (a2 :: ps2)),
                        by rw [lookup_nil], by rw [lookup_nil]⟩)
  | cons b qs ih =>
      cases p with
      | nil => rw [removePath_nil]; exact Or.inl rfl
      | cons a ps =>
          cases fs with
          | file c => cases ps <;> exact Or.inl rfl
          | dir es =>
              cases ps with
              | nil =>
                  by_cases hab : a = b
                  · subst hab
                    refine Or.inr (Or.inl ?_)
                    show (FSNode.dir (es.filter fun e => !(e.1 == a))).lookup (a :: qs) = none
                    rw [lookup_dir_cons]
                    have hnone : getEntry (es.filter fun e => !(e.1 == a)) a = none := by
                      induction es with
                      | nil => rfl
                      | cons e rest ihe =>
                          by_cases he : e.1 = a
                          · rw [List.filter_cons_of_neg (by simp [he])]
                            exact ihe
                          · rw [List.filter_cons_of_pos (by simpa using he)]
                            rw [getEntry, if_neg (by simpa using he)]
                            exact ihe
                    rw [hnone]
                    rfl
                  · refine Or.inl ?_
                    show (FSNode.dir (es.filter fun e => !(e.1 == a))).lookup (b :: qs) = _
                    rw [lookup_dir_cons, lookup_dir_cons, getEntry_removeFilter_ne _ hab]
              | cons a2 ps2 =>
                  rw [removePath_dir_pair]
                  cases hge : getEntry es a with
                  | none => exact Or.inl rfl
                  | some c =>
                      by_cases hab : a = b
                      · subst hab
                        rw [lookup_dir_cons, lookup_dir_cons, getEntry_setEntry_self, hge]
                        simp only [Option.some_bind]
                        exact ih c (a2 :: ps2)
                      · refine Or.inl ?_
                        rw [lookup_dir_cons, lookup_dir_cons, getEntry_setEntry_ne _ hab]

theorem isDirAt_removePath_mono {fs : FSNode} {p q : Path} :
    isDirAt (fs.removePath p) q = true → isDirAt fs q = true := by
  intro h
  obtain ⟨es2, hes⟩ := isDirAt_iff_lookup.mp h
  rcases removePath_shape fs p q with hsh | hsh | ⟨es3, es4, h3, _⟩
  · exact isDirAt_iff_lookup.mpr ⟨es2, by rw [← hsh]; exact hes⟩
  · rw [hsh] at hes; cases hes
  · exact isDirAt_iff_lookup.mpr ⟨es3, h3⟩

/-! ## Shape congruences -/

theorem findSubdirCI_congr {fs fs2 : FSNode} {s : Path} (h : fs2.lookup s = fs.lookup s)
    (name : String) : findSubdirCI fs2 s name = findSubdirCI fs s name := by
  unfold findSubdirCI
  rw [h]

theorem hasStructureAt_congr {fs fs2 : FSNode} {s : Path} (h : fs2.lookup s = fs.lookup s) :
    hasStructureAt fs2 s = hasStructureAt fs s := by
  unfold hasStructureAt
  rw [findSubdirCI_congr h, findSubdirCI_congr h, findSubdirCI_congr h]

theorem entriesAt_snoc_congr {fs fs2 : FSNode} {s : Path} (h : fs2.lookup s = fs.lookup s)
    (n : String) : entriesAt fs2 (s ++ [n]) = entriesAt fs (s ++ [n]) := by
  unfold entriesAt
  rw [lookup_append, lookup_append, h]

theorem entriesAt_eq_cons {fs : FSNode} {q : Path} {e : String × FSNode} {L : Entries}
    (h : entriesAt fs q = e :: L) : fs.lookup q = some (.dir (e :: L)) := by
  unfold entriesAt at h
  cases hl : fs.lookup q with
  | none => rw [hl] at h; cases h
  | some n =>
      cases n with
      | file c => rw [hl] at h; cases h
      | dir es => rw [hl] at h; cases h; rfl

/-! ## Pipeline write-step relation -/

theorem StepOK.refl (par : Path) (fs : FSNode) : StepOK par fs fs :=
  ⟨fun _ _ _ => rfl, fun _ _ _ h => h⟩

theorem StepOK.trans {par : Path} {fs1 fs2 fs3 : FSNode}
    (h1 : StepOK par fs1 fs2) (h2 : StepOK par fs2 fs3) : StepOK par fs1 fs3 :=
  ⟨fun q a b => (h2.1 q a b).trans (h1.1 q a b),
   fun q a b c => h2.2 q a b (h1.2 q a b c)⟩

theorem OffPar.extend {par s : Path} (h : OffPar par s) (t : Path) : OffPar par (s ++ t) := by
  obtain ⟨h1, h2⟩ := h
  constructor
  · cases hh : isUnder par (s ++ t) with
    | false => rfl
    | true =>
        exfalso
        rcases isUnder_total hh (isUnder_append s t) with hc | hc
        · rw [hc] at h1; cases h1
        · rw [hc] at h2; cases h2
  · cases hh : isUnder (s ++ t) par with
    | false => rfl
    | true =>
        exfalso
        have := isUnder_trans (isUnder_append s t) hh
        rw [this] at h2
        cases h2

theorem offPar_of_write {par t q : Path} (hpart : isUnder par t = true)
    (hq1 : isUnder par q = false) (hq2 : isUnder q par = false) :
    isUnder t q = false ∧ isUnder q t = false := by
  constructor
  · cases hh : isUnder t q with
    | false => rfl
    | true => exact absurd (isUnder_trans hpart hh) (by rw [hq1]; exact Bool.false_ne_true)
  · cases hh : isUnder q t with
    | false => rfl
    | true =>
        exfalso
        rcases isUnder_total hh hpart with hc | hc
        · rw [hc] at hq2; cases hq2
        · rw [hc] at hq1; cases hq1

theorem stepOK_setPath {par t : Path} (fs v : FSNode) (hpart : isUnder par t = true)
    (hsafe : ∀ q, isUnder t q = true → q ≠ t → q.length ≤ par.length + 2 →
      pathExists fs q = true → False) :
    StepOK par fs (fs.setPath t v) := by
  constructor
  · intro q hq1 hq2
    obtain ⟨ha, hb⟩ := offPar_of_write hpart hq1 hq2
    exact lookup_setPath_off fs v ha hb
  · intro q hq hlen hex
    by_cases h1 : isUnder q t = true
    · exact pathExists_setPath_under h1
    · by_cases h2 : isUnder t q = true
      · have hne : q ≠ t := by
          intro he
          exact h1 (he ▸ isUnder_refl t)
        exact absurd hex (fun hc => hsafe q h2 hne hlen hc)
      · unfold pathExists
        rw [lookup_setPath_off fs v (Bool.not_eq_true _ ▸ h2) (Bool.not_eq_true _ ▸ h1)]
        exact hex

theorem stepOK_setPath_deep {par t : Path} (fs v : FSNode) (hpart : isUnder par t = true)
    (hlen : par.length + 2 ≤ t.length) : StepOK par fs (fs.setPath t v) := by
  apply stepOK_setPath fs v hpart
  intro q hu hne hql hex
  have hl2 := isUnder_length_le hu
  have : q = t := (isUnder_antisymm hu (by omega)).symm
  exact hne this

theorem stepOK_replaceAt {par t : Path} (fs v : FSNode) (hpart : isUnder par t = true)
    (hlen : par.length + 2 ≤ t.length) : StepOK par fs ((fs.removePath t).setPath t v) := by
  constructor
  · intro q hq1 hq2
    obtain ⟨ha, hb⟩ := offPar_of_write hpart hq1 hq2
    rw [lookup_setPath_off _ v ha hb, lookup_removePath_off fs ha hb]
  · intro q hq hql hex
    exact pathExists_replaceAt (by have := hql; omega) hex

theorem stepOK_ensureDirAt {par t : Path} (fs : FSNode) (hpart : isUnder par t = true) :
    StepOK par fs (ensureDirAt fs t) := by
  unfold ensureDirAt
  by_cases hex : pathExists fs t = true
  · rw [if_pos hex]
    exact StepOK.refl par fs
  · rw [if_neg hex]
    apply stepOK_setPath fs _ hpart
    intro q hu hne _ hq
    obtain ⟨u, rfl⟩ := isUnder_iff_exists.mp hu
    cases u with
    | nil => exact hne (by simp)
    | cons x rest => exact hex (pathExists_ancestor (isUnder_append t (x :: rest)) hq)

theorem stepOK_shCopy2 {par dst : Path} (fs : FSNode) (src : Path)
    (hpart : isUnder par dst = true) (hlen : dst.length ≤ par.length + 2)
    (hmin : par.length + 1 ≤ dst.length) :
    StepOK par fs (shCopy2 fs src dst) := by
  unfold shCopy2
  cases fs.lookup src with
  | none => exact StepOK.refl par fs
  | some n =>
      simp only
      by_cases hd : isDirAt fs dst = true
      · rw [if_pos hd]
        apply stepOK_setPath fs n (isUnder_trans hpart (isUnder_append dst [pName src]))
        intro q hu hne hql hex
        have h1 := isUnder_length_le hu
        have h2 : q = dst ++ [pName src] := by
          refine (isUnder_antisymm hu ?_).symm
          simp only [List.length_append, List.length_cons, List.length_nil]
          omega
        exact hne h2
      · rw [if_neg hd]
        apply stepOK_setPath fs n hpart
        intro q hu hne _ hex
        obtain ⟨u, rfl⟩ := isUnder_iff_exists.mp hu
        cases u with
        | nil => exact hne (by simp)
        | cons x rest => exact hd (isDirAt_of_strict_child hex)


theorem snoc_len (par : Path) (m : String) : (par ++ [m]).length = par.length + 1 := by
  simp

theorem snoc2_under (par : Path) (m n : String) :
    isUnder par ((par ++ [m]) ++ [n]) = true := by
  rw [List.append_assoc]
  exact isUnder_append par ([m] ++ [n])

theorem dropLast_snoc (par : Path) (m : String) : (par ++ [m]).dropLast = par := by
  simp

theorem stepOK_copyTreeItem {par srcSub : Path} {m : String} (fail : Fail) (fs : FSNode)
    (hs : OffPar par srcSub) (n : String) :
    StepOK par fs (copyTreeItem fail fs srcSub (par ++ [m]) n) := by
  unfold copyTreeItem
  by_cases hf : fail ((par ++ [m]) ++ [n]) = true
  · rw [if_pos hf]
    exact StepOK.refl par fs
  · rw [if_neg hf]
    cases hlk : fs.lookup (srcSub ++ [n]) with
    | none => exact StepOK.refl par fs
    | some node =>
        cases node with
        | file c =>
            exact stepOK_shCopy2 fs _ (snoc2_under par m n)
              (by rw [List.append_assoc, List.length_append]; simp)
              (by rw [List.append_assoc, List.length_append]; simp)
        | dir es =>
            by_cases hex : pathExists fs ((par ++ [m]) ++ [n]) = true
            · rw [if_pos hex]
              by_cases hfile : isFileAt fs ((par ++ [m]) ++ [n]) = true
              · rw [if_pos hfile]
                exact StepOK.refl par fs
              · rw [if_neg hfile]
                unfold copytreeAt
                have hsrcOff := hs.extend [n]
                obtain ⟨ha, hb⟩ := offPar_of_write (snoc2_under par m n) hsrcOff.1 hsrcOff.2
                rw [lookup_removePath_off fs ha hb, hlk]
                exact stepOK_replaceAt fs _ (snoc2_under par m n)
                  (by rw [List.append_assoc, List.length_append]; simp)
            · rw [if_neg hex]
              unfold copytreeAt
              rw [hlk]
              exact stepOK_setPath_deep fs _ (snoc2_under par m n)
                (by rw [List.append_assoc, List.length_append]; simp)

theorem stepOK_foldTreeItems {par srcSub : Path} {m : String} (fail : Fail)
    (hs : OffPar par srcSub) :
    ∀ (L : List (String × FSNode)) (fs : FSNode),
      StepOK par fs
        (L.foldl (fun acc it => copyTreeItem fail acc srcSub (par ++ [m]) it.1) fs) := by
  intro L
  induction L with
  | nil =>
      intro fs
      exact StepOK.refl par fs
  | cons e L ih =>
      intro fs
      rw [List.foldl_cons]
      exact (stepOK_copyTreeItem fail fs hs e.1).trans (ih _)

theorem stepOK_copySubdirItems {par srcSub : Path} {m : String} (fail : Fail) (fs : FSNode)
    (hs : OffPar par srcSub) :
    StepOK par fs (copySubdirItems fail fs srcSub (par ++ [m])) :=
  stepOK_foldTreeItems fail hs (entriesAt fs srcSub) fs

theorem stepOK_modsPhase {par s : Path} {m : String} (fail : Fail) (hs : OffPar par s)
    (g : FSNode) : StepOK par g
      (match findSubdirCI g s "Mods" with
        | some n => copySubdirItems fail g (s ++ [n]) (par ++ [m])
        | none => g) := by
  cases findSubdirCI g s "Mods" with
  | none => exact StepOK.refl par g
  | some n => exact stepOK_copySubdirItems fail g (hs.extend [n])

theorem stepOK_sibPhase {par s : Path} (fail : Fail) (hs : OffPar par s) (sib : String)
    (g : FSNode) : StepOK par g
      (match findSubdirCI g s sib with
        | some n => copySubdirItems fail (ensureDirAt g (par ++ [sib]))
            (s ++ [n]) (par ++ [sib])
        | none => g) := by
  cases findSubdirCI g s sib with
  | none => exact StepOK.refl par g
  | some n =>
      exact (stepOK_ensureDirAt g (isUnder_append par [sib])).trans
        (stepOK_copySubdirItems fail _ (hs.extend [n]))

theorem stepOK_copyStructuredMod {par : Path} {m : String} (fail : Fail) (fs : FSNode)
    {s : Path} (hs : OffPar par s) :
    StepOK par fs (copyStructuredMod fail fs s (par ++ [m])) := by
  unfold copyStructuredMod
  rw [dropLast_snoc]
  by_cases hex : pathExists fs s = true
  · rw [hex, if_neg (by simp)]
    exact (stepOK_modsPhase fail hs fs).trans
      ((stepOK_sibPhase fail hs "Plugins" _).trans (stepOK_sibPhase fail hs "UserLibs" _))
  · rw [Bool.not_eq_true] at hex
    rw [hex, if_pos (by simp)]
    exact StepOK.refl par fs


theorem stepOK_copyModItem {par : Path} {m : String} (fail : Fail) (fs : FSNode) {s : Path}
    (hs : OffPar par s) (skip : Bool) :
    StepOK par fs (copyModItem fail fs s (par ++ [m]) skip).1 := by
  unfold copyModItem
  by_cases hex : pathExists fs s = true
  · rw [hex, if_neg (by simp)]
    by_cases hfile : isFileAt fs s = true
    · rw [if_pos hfile]
      by_cases hskip : (skip && pathExists fs ((par ++ [m]) ++ [pName s])) = true
      · rw [if_pos hskip]
        exact StepOK.refl par fs
      · rw [if_neg hskip]
        by_cases hfl : fail ((par ++ [m]) ++ [pName s]) = true
        · rw [if_pos hfl]
          exact StepOK.refl par fs
        · rw [if_neg hfl]
          exact stepOK_shCopy2 fs _ (snoc2_under par m (pName s))
            (by rw [List.append_assoc, List.length_append]; simp)
            (by rw [List.append_assoc, List.length_append]; simp)
    · rw [if_neg hfile]
      by_cases hstr : hasStructureAt fs s = true
      · rw [if_pos hstr]
        by_cases hskip : (skip && modsRootBlocked fs s (par ++ [m])) = true
        · rw [if_pos hskip]
          exact StepOK.refl par fs
        · rw [if_neg hskip]
          exact stepOK_copyStructuredMod fail fs hs
      · rw [if_neg hstr]
        by_cases hskip : (skip && pathExists fs ((par ++ [m]) ++ [pName s])) = true
        · rw [if_pos hskip]
          exact StepOK.refl par fs
        · rw [if_neg hskip]
          by_cases htex : pathExists fs ((par ++ [m]) ++ [pName s]) = true
          · by_cases htf : isFileAt fs ((par ++ [m]) ++ [pName s]) = true
            · rw [if_pos (by rw [htex, htf]; rfl)]
              exact StepOK.refl par fs
            · rw [if_neg (by rw [htex]; simpa using htf)]
              by_cases hfl : fail ((par ++ [m]) ++ [pName s]) = true
              · rw [if_pos hfl]
                exact StepOK.refl par fs
              · rw [if_neg hfl, if_pos htex]
                unfold copytreeAt
                obtain ⟨ha, hb⟩ := offPar_of_write (snoc2_under par m (pName s)) hs.1 hs.2
                rw [lookup_removePath_off fs ha hb]
                cases hlk : fs.lookup s with
                | none => rw [pathExists, hlk] at hex; cases hex
                | some node =>
                    exact stepOK_replaceAt fs _ (snoc2_under par m (pName s))
                      (by rw [List.append_assoc, List.length_append]; simp)
          · have htex2 : pathExists fs ((par ++ [m]) ++ [pName s]) = false := by
              rw [Bool.not_eq_true] at htex
              exact htex
            rw [if_neg (by rw [htex2]; simp)]
            by_cases hfl : fail ((par ++ [m]) ++ [pName s]) = true
            · rw [if_pos hfl]
              exact StepOK.refl par fs
            · rw [if_neg hfl, if_neg htex]
              unfold copytreeAt
              cases hlk : fs.lookup s with
              | none => rw [pathExists, hlk] at hex; cases hex
              | some node =>
                  exact stepOK_setPath_deep fs _ (snoc2_under par m (pName s))
                    (by rw [List.append_assoc, List.length_append]; simp)
  · rw [Bool.not_eq_true] at hex
    rw [hex, if_pos (by simp)]
    exact StepOK.refl par fs

theorem stepOK_foldUserMods {par : Path} {m : String} (fail : Fail) (force : Bool) :
    ∀ (L : List Path), (∀ s ∈ L, OffPar par s) → ∀ (acc : FSNode × Nat),
      StepOK par acc.1
        (L.foldl (fun acc p =>
          let r := copyModItem fail acc.1 p (par ++ [m]) (!force)
          (r.1, acc.2 + (if r.2 then 1 else 0))) acc).1 := by
  intro L
  induction L with
  | nil =>
      intro _ acc
      exact StepOK.refl par acc.1
  | cons p L ih =>
      intro hL acc
      rw [List.foldl_cons]
      exact (stepOK_copyModItem fail acc.1 (hL p (by simp)) (!force)).trans
        (ih (fun s hsm => hL s (by simp [hsm])) _)

theorem stepOK_copyUserMods {par : Path} {m : String} (fail : Fail) (fs : FSNode)
    {L : List Path} (hL : ∀ s ∈ L, OffPar par s) (force : Bool) :
    StepOK par fs (copyUserMods fail fs L (par ++ [m]) force).1 := by
  unfold copyUserMods
  exact stepOK_foldUserMods fail force (L.filter fun p => pathExists fs p)
    (fun s hsm => hL s (List.mem_of_mem_filter hsm)) (fs, 0)

theorem stepOK_copyMultiplayerMods {par : Path} {m : String} (fail : Fail) (fs : FSNode)
    {mm ms : Path} (hmm : OffPar par mm) (force : Bool) :
    StepOK par fs (copyMultiplayerMods fail fs mm ms (par ++ [m]) force).1 := by
  unfold copyMultiplayerMods
  rw [dropLast_snoc]
  have hst1 : StepOK par fs (if pathExists fs mm = true then
      ((copyModItem fail fs mm (par ++ [m]) (!force)).1,
        if (copyModItem fail fs mm (par ++ [m]) (!force)).2 then 1 else 0)
    else (fs, 0)).1 := by
    by_cases hex : pathExists fs mm = true
    · rw [if_pos hex]
      exact stepOK_copyModItem fail fs hmm (!force)
    · rw [if_neg hex]
      exact StepOK.refl par fs
  have hgen : ∀ (st : FSNode × Nat), StepOK par fs st.1 →
      StepOK par fs (if pathExists st.1 ms = true then
        (if (!(pathExists st.1 (par ++ [pName ms])) || force) = true then
          (if fail (par ++ [pName ms]) = true then st
           else (shCopy2 st.1 ms (par ++ [pName ms]), st.2 + 1))
         else st)
       else st).1 := by
    intro st hst
    by_cases h1 : pathExists st.1 ms = true
    · rw [if_pos h1]
      by_cases h2 : (!(pathExists st.1 (par ++ [pName ms])) || force) = true
      · rw [if_pos h2]
        by_cases h3 : fail (par ++ [pName ms]) = true
        · rw [if_pos h3]
          exact hst
        · rw [if_neg h3]
          exact hst.trans (stepOK_shCopy2 st.1 ms (isUnder_append par [pName ms])
            (by simp) (by simp))
      · rw [if_neg h2]
        exact hst
    · rw [if_neg h1]
      exact hst
  exact hgen _ hst1

theorem stepOK_copyOptLib {par : Path} {m : String} (fail : Fail) (st : FSNode × Nat)
    {p? : Option Path} (hp : ∀ s ∈ p?.toList, OffPar par s) (force : Bool) :
    StepOK par st.1 (copyOptLib fail st p? (par ++ [m]) force).1 := by
  unfold copyOptLib
  cases p? with
  | none => exact StepOK.refl par st.1
  | some p => exact stepOK_copyModItem fail st.1 (hp p (by simp)) (!force)

theorem stepOK_copyLibraryMods {par : Path} {m : String} (fail : Fail) (fs : FSNode)
    {s1 ue : Option Path} (h1 : ∀ s ∈ s1.toList, OffPar par s)
    (h2 : ∀ s ∈ ue.toList, OffPar par s) (force : Bool) :
    StepOK par fs (copyLibraryMods fail fs s1 ue (par ++ [m]) force).1 := by
  unfold copyLibraryMods
  exact (stepOK_copyOptLib fail (fs, 0) h1 force).trans (stepOK_copyOptLib fail _ h2 force)

theorem stepOK_copyItem {par : Path} {m : String} (fs : FSNode) {src : Path}
    (hsrc : OffPar par src) :
    StepOK par fs (copyItem fs src (par ++ [m])) := by
  unfold copyItem
  by_cases hd : isDirAt fs src = true
  · rw [if_pos hd]
    unfold copytreeAt
    by_cases htex : pathExists fs ((par ++ [m]) ++ [pName src]) = true
    · rw [if_pos htex]
      obtain ⟨ha, hb⟩ := offPar_of_write (snoc2_under par m (pName src)) hsrc.1 hsrc.2
      rw [lookup_removePath_off fs ha hb]
      obtain ⟨es, hes⟩ := isDirAt_iff_lookup.mp hd
      rw [hes]
      exact stepOK_replaceAt fs _ (snoc2_under par m (pName src))
        (by rw [List.append_assoc, List.length_append]; simp)
    · rw [if_neg htex]
      cases hlk : fs.lookup src with
      | none => exact StepOK.refl par fs
      | some node =>
          exact stepOK_setPath_deep fs _ (snoc2_under par m (pName src))
            (by rw [List.append_assoc, List.length_append]; simp)
  · rw [if_neg hd]
    exact stepOK_shCopy2 fs _ (snoc2_under par m (pName src))
      (by rw [List.append_assoc, List.length_append]; simp)
      (by rw [List.append_assoc, List.length_append]; simp)

theorem stepOK_ensureModsDir {par : Path} {m : String} (fs : FSNode) :
    StepOK par fs (ensureDirAt fs (par ++ [m])) :=
  stepOK_ensureDirAt fs (isUnder_append par [m])


/-! ## Skip-witness (settled) machinery -/

theorem settledB_of_missing {fs : FSNode} {s d : Path} (hex : pathExists fs s = false) :
    settledB fs s d = true := by
  unfold settledB
  rw [hex]
  rfl

theorem settledB_of_file {fs : FSNode} {s d : Path} (hf : isFileAt fs s = true)
    (ht : pathExists fs (d ++ [pName s]) = true) : settledB fs s d = true := by
  unfold settledB destBlocked
  rw [if_pos hf, ht]
  simp

theorem settledB_of_flat {fs : FSNode} {s d : Path} (hf : isFileAt fs s = false)
    (hstr : hasStructureAt fs s = false) (ht : pathExists fs (d ++ [pName s]) = true) :
    settledB fs s d = true := by
  unfold settledB destBlocked
  rw [if_neg (by rw [hf]; simp), if_neg (by rw [hstr]; simp), ht]
  simp

theorem settledB_of_blocked {fs : FSNode} {s d : Path} (hf : isFileAt fs s = false)
    (hstr : hasStructureAt fs s = true) (hb : modsRootBlocked fs s d = true) :
    settledB fs s d = true := by
  unfold settledB destBlocked
  rw [if_neg (by rw [hf]; simp), if_pos hstr, hb]
  simp

theorem settled_skip (fail : Fail) {fs : FSNode} {s d : Path} (h : settledB fs s d = true) :
    copyModItem fail fs s d true = (fs, false) := by
  unfold copyModItem
  by_cases hex : pathExists fs s = true
  · have hdb : destBlocked fs s d = true := by
      unfold settledB at h
      rw [hex] at h
      simpa using h
    rw [hex, if_neg (by simp)]
    unfold destBlocked at hdb
    by_cases hfile : isFileAt fs s = true
    · rw [if_pos hfile] at hdb
      rw [if_pos hfile, if_pos (by rw [hdb]; rfl)]
    · rw [if_neg hfile] at hdb
      rw [if_neg hfile]
      by_cases hstr : hasStructureAt fs s = true
      · rw [if_pos hstr] at hdb
        rw [if_pos hstr, if_pos (by rw [hdb]; rfl)]
      · rw [if_neg hstr] at hdb
        rw [if_neg hstr, if_pos (by rw [hdb]; rfl)]
  · have hex2 : pathExists fs s = false := by
      rw [Bool.not_eq_true] at hex
      exact hex
    rw [hex2, if_pos (by simp)]

theorem modsNonemptyB_congr {fs fs2 : FSNode} {s : Path} (h : fs2.lookup s = fs.lookup s) :
    modsNonemptyB fs2 s = modsNonemptyB fs s := by
  unfold modsNonemptyB
  rw [findSubdirCI_congr h]
  cases findSubdirCI fs s "Mods" with
  | none => rfl
  | some mn =>
      dsimp only
      rw [entriesAt_snoc_congr h]

theorem settledB_transport {par : Path} {m : String} {fs fs2 : FSNode} {s : Path}
    (hstep : StepOK par fs fs2) (hs : OffPar par s)
    (h : settledB fs s (par ++ [m]) = true) : settledB fs2 s (par ++ [m]) = true := by
  have heq : fs2.lookup s = fs.lookup s := hstep.1 s hs.1 hs.2
  unfold settledB at h ⊢
  rw [pathExists_congr heq]
  by_cases hex : pathExists fs s = true
  · rw [hex] at h ⊢
    simp only [Bool.not_true, Bool.false_or] at h ⊢
    unfold destBlocked at h ⊢
    rw [isFileAt_congr heq, hasStructureAt_congr heq]
    by_cases hfile : isFileAt fs s = true
    · rw [if_pos hfile] at h ⊢
      exact hstep.2 _ (snoc2_under par m (pName s)) (by simp) h
    · rw [if_neg hfile] at h ⊢
      by_cases hstr : hasStructureAt fs s = true
      · rw [if_pos hstr] at h ⊢
        unfold modsRootBlocked at h ⊢
        rw [findSubdirCI_congr heq]
        cases hf : findSubdirCI fs s "Mods" with
        | none => rw [hf] at h; cases h
        | some mn =>
            rw [hf] at h
            dsimp only at h ⊢
            rw [entriesAt_snoc_congr heq]
            rw [List.any_eq_true] at h ⊢
            obtain ⟨it, hmem, hexi⟩ := h
            exact ⟨it, hmem, hstep.2 _ (snoc2_under par m it.1) (by simp) hexi⟩
      · rw [if_neg hstr] at h ⊢
        exact hstep.2 _ (snoc2_under par m (pName s)) (by simp) h
  · have hex2 : pathExists fs s = false := by
      rw [Bool.not_eq_true] at hex
      exact hex
    rw [hex2]
    simp


theorem copyTreeItem_first {par srcSub : Path} {m : String} (fail : Fail) {fs : FSNode}
    (hs : OffPar par srcSub) {n0 : String} {v0 : FSNode}
    (hlk : fs.lookup (srcSub ++ [n0]) = some v0)
    (hf : fail ((par ++ [m]) ++ [n0]) = false) :
    pathExists (copyTreeItem fail fs srcSub (par ++ [m]) n0) ((par ++ [m]) ++ [n0]) = true := by
  unfold copyTreeItem
  rw [if_neg (by rw [hf]; simp)]
  rw [hlk]
  cases v0 with
  | file c =>
      dsimp only
      unfold shCopy2
      rw [hlk]
      dsimp only
      by_cases hd : isDirAt fs ((par ++ [m]) ++ [n0]) = true
      · rw [if_pos hd]
        exact pathExists_setPath_under (isUnder_append _ _)
      · rw [if_neg hd]
        unfold pathExists
        rw [lookup_setPath_self]
        rfl
  | dir es =>
      dsimp only
      by_cases htex : pathExists fs ((par ++ [m]) ++ [n0]) = true
      · rw [if_pos htex]
        by_cases htf : isFileAt fs ((par ++ [m]) ++ [n0]) = true
        · rw [if_pos htf]
          exact htex
        · rw [if_neg htf]
          unfold copytreeAt
          obtain ⟨ha, hb⟩ := offPar_of_write (snoc2_under par m n0)
            (hs.extend [n0]).1 (hs.extend [n0]).2
          rw [lookup_removePath_off fs ha hb, hlk]
          unfold pathExists
          rw [lookup_setPath_self]
          rfl
      · rw [if_neg htex]
        unfold copytreeAt
        rw [hlk]
        unfold pathExists
        rw [lookup_setPath_self]
        rfl

theorem copyStructuredMod_modsWitness {par : Path} {m : String} {fs : FSNode} {s : Path}
    (hs : OffPar par s) {mn n0 : String} {v0 : FSNode} {L : Entries}
    (hfind : findSubdirCI fs s "Mods" = some mn)
    (hents : entriesAt fs (s ++ [mn]) = (n0, v0) :: L) :
    pathExists (copyStructuredMod noFail fs s (par ++ [m])) ((par ++ [m]) ++ [n0]) = true := by
  have hexs : pathExists fs s = true := by
    unfold findSubdirCI at hfind
    cases hl : fs.lookup s with
    | none => rw [hl] at hfind; cases hfind
    | some n =>
        unfold pathExists
        rw [hl]
        rfl
  have hchild : fs.lookup ((s ++ [mn]) ++ [n0]) = some v0 := by
    have hdir := entriesAt_eq_cons hents
    rw [lookup_append, hdir]
    simp only [Option.some_bind]
    rw [lookup_dir_cons]
    simp [getEntry, lookup_nil]
  have hw1 : pathExists (copySubdirItems noFail fs (s ++ [mn]) (par ++ [m]))
      ((par ++ [m]) ++ [n0]) = true := by
    unfold copySubdirItems
    rw [hents, List.foldl_cons]
    have hfirst := copyTreeItem_first (m := m) noFail (hs.extend [mn]) hchild rfl
    exact (stepOK_foldTreeItems noFail (hs.extend [mn]) L _).2 _ (snoc2_under par m n0)
      (by simp) hfirst
  unfold copyStructuredMod
  rw [dropLast_snoc, hexs, if_neg (by simp), hfind]
  dsimp only
  exact ((stepOK_sibPhase noFail hs "Plugins" _).trans (stepOK_sibPhase noFail hs "UserLibs" _)).2
    _ (snoc2_under par m n0) (by simp) hw1

theorem copyModItem_establishes {par : Path} {m : String} {fs : FSNode} {s : Path}
    (hs : OffPar par s)
    (hmods : hasStructureAt fs s = true → modsNonemptyB fs s = true) :
    settledB (copyModItem noFail fs s (par ++ [m]) true).1 s (par ++ [m]) = true := by
  by_cases hex : pathExists fs s = true
  · unfold copyModItem
    rw [hex, if_neg (by simp)]
    by_cases hfile : isFileAt fs s = true
    · rw [if_pos hfile]
      by_cases hskip : (true && pathExists fs ((par ++ [m]) ++ [pName s])) = true
      · rw [if_pos hskip]
        exact settledB_of_file hfile (by simpa using hskip)
      · rw [if_neg hskip, if_neg (by simp [noFail])]
        obtain ⟨c, hlk⟩ := isFileAt_iff_lookup.mp hfile
        have hstep := stepOK_shCopy2 fs s (snoc2_under par m (pName s))
          (by rw [List.append_assoc, List.length_append]; simp)
          (by rw [List.append_assoc, List.length_append]; simp)
        have heq := hstep.1 s hs.1 hs.2
        refine settledB_of_file (by rw [isFileAt_congr heq]; exact hfile) ?_
        unfold shCopy2
        rw [hlk]
        dsimp only
        by_cases hd : isDirAt fs ((par ++ [m]) ++ [pName s]) = true
        · rw [if_pos hd]
          exact pathExists_setPath_under (isUnder_append _ _)
        · rw [if_neg hd]
          unfold pathExists
          rw [lookup_setPath_self]
          rfl
    · rw [if_neg hfile]
      by_cases hstr : hasStructureAt fs s = true
      · rw [if_pos hstr]
        by_cases hskip : (true && modsRootBlocked fs s (par ++ [m])) = true
        · rw [if_pos hskip]
          exact settledB_of_blocked (by simpa using hfile) hstr (by simpa using hskip)
        · rw [if_neg hskip]
          have hne := hmods hstr
          unfold modsNonemptyB at hne
          cases hf : findSubdirCI fs s "Mods" with
          | none => rw [hf] at hne; cases hne
          | some mn =>
              rw [hf] at hne
              dsimp only at hne
              cases hE : entriesAt fs (s ++ [mn]) with
              | nil => rw [hE] at hne; cases hne
              | cons e L =>
                  obtain ⟨n0, v0⟩ := e
                  have hwit := copyStructuredMod_modsWitness (m := m) hs hf hE
                  have hstep := stepOK_copyStructuredMod (m := m) noFail fs hs
                  have heq := hstep.1 s hs.1 hs.2
                  refine settledB_of_blocked (by rw [isFileAt_congr heq]; simpa using hfile)
                    (by rw [hasStructureAt_congr heq]; exact hstr) ?_
                  unfold modsRootBlocked
                  rw [findSubdirCI_congr heq, hf]
                  dsimp only
                  rw [entriesAt_snoc_congr heq, hE, List.any_eq_true]
                  exact ⟨(n0, v0), by simp, hwit⟩
      · rw [if_neg hstr]
        by_cases hskip : (true && pathExists fs ((par ++ [m]) ++ [pName s])) = true
        · rw [if_pos hskip]
          exact settledB_of_flat (by simpa using hfile) (by simpa using hstr)
            (by simpa using hskip)
        · rw [if_neg hskip]
          by_cases htex : pathExists fs ((par ++ [m]) ++ [pName s]) = true
          · by_cases htf : isFileAt fs ((par ++ [m]) ++ [pName s]) = true
            · rw [if_pos (by rw [htex, htf]; rfl)]
              exact settledB_of_flat (by simpa using hfile) (by simpa using hstr) htex
            · rw [if_neg (by rw [htex]; simpa using htf), if_neg (by simp [noFail]),
                if_pos htex]
              unfold copytreeAt
              obtain ⟨ha, hb⟩ := offPar_of_write (snoc2_under par m (pName s)) hs.1 hs.2
              rw [lookup_removePath_off fs ha hb]
              cases hlk : fs.lookup s with
              | none => rw [pathExists, hlk] at hex; cases hex
              | some node =>
                  dsimp only
                  have hstep := stepOK_replaceAt fs node (snoc2_under par m (pName s))
                    (by rw [List.append_assoc, List.length_append]; simp)
                  have heq := hstep.1 s hs.1 hs.2
                  refine settledB_of_flat (by rw [isFileAt_congr heq]; simpa using hfile)
                    (by rw [hasStructureAt_congr heq]; simpa using hstr) ?_
                  unfold pathExists
                  rw [lookup_setPath_self]
                  rfl
          · have htex2 : pathExists fs ((par ++ [m]) ++ [pName s]) = false := by
              rw [Bool.not_eq_true] at htex
              exact htex
            rw [if_neg (by rw [htex2]; simp), if_neg (by simp [noFail]), if_neg htex]
            unfold copytreeAt
            cases hlk : fs.lookup s with
            | none => rw [pathExists, hlk] at hex; cases hex
            | some node =>
                dsimp only
                have hstep := stepOK_setPath_deep fs node (snoc2_under par m (pName s))
                  (by rw [List.append_assoc, List.length_append]; simp)
                have heq := hstep.1 s hs.1 hs.2
                refine settledB_of_flat (by rw [isFileAt_congr heq]; simpa using hfile)
                  (by rw [hasStructureAt_congr heq]; simpa using hstr) ?_
                unfold pathExists
                rw [lookup_setPath_self]
                rfl
  · have hex2 : pathExists fs s = false := by
      rw [Bool.not_eq_true] at hex
      exact hex
    unfold copyModItem
    rw [hex2, if_pos (by simp)]
    exact settledB_of_missing hex2


/-! ## Second-run no-op lemmas -/

theorem pathExists_of_isFileAt {fs : FSNode} {p : Path} (h : isFileAt fs p = true) :
    pathExists fs p = true := by
  obtain ⟨c, hlk⟩ := isFileAt_iff_lookup.mp h
  unfold pathExists
  rw [hlk]
  rfl

theorem isDirAt_false_of_isFileAt {fs : FSNode} {p : Path} (h : isFileAt fs p = true) :
    isDirAt fs p = false := by
  obtain ⟨c, hlk⟩ := isFileAt_iff_lookup.mp h
  unfold isDirAt
  rw [hlk]

theorem ensureDirAt_self (fs : FSNode) (p : Path) :
    pathExists (ensureDirAt fs p) p = true := by
  unfold ensureDirAt
  by_cases hex : pathExists fs p = true
  · rw [if_pos hex]
    exact hex
  · rw [if_neg hex]
    unfold pathExists
    rw [lookup_setPath_self]
    rfl

theorem ensureDirAt_noop {fs : FSNode} {p : Path} (hex : pathExists fs p = true) :
    ensureDirAt fs p = fs := by
  unfold ensureDirAt
  rw [if_pos hex]

theorem foldMods_noop {fail : Fail} {par : Path} {m : String} {fs : FSNode} :
    ∀ (L : List Path) (c : Nat), (∀ s ∈ L, settledB fs s (par ++ [m]) = true) →
      L.foldl (fun acc p =>
        let r := copyModItem fail acc.1 p (par ++ [m]) true
        (r.1, acc.2 + (if r.2 then 1 else 0))) (fs, c) = (fs, c) := by
  intro L
  induction L with
  | nil =>
      intro c _
      rfl
  | cons p L ih =>
      intro c hL
      rw [List.foldl_cons]
      have hp := settled_skip fail (hL p (by simp))
      dsimp only
      rw [hp]
      dsimp only
      rw [if_neg (by simp), Nat.add_zero]
      exact ih c (fun s hsm => hL s (by simp [hsm]))

theorem copyUserMods_noop {fail : Fail} {par : Path} {m : String} {fs : FSNode}
    {L : List Path} (hL : ∀ s ∈ L, settledB fs s (par ++ [m]) = true) :
    copyUserMods fail fs L (par ++ [m]) false = (fs, 0) := by
  unfold copyUserMods
  simp only [Bool.not_false]
  exact foldMods_noop _ 0 (fun s hsm => hL s (List.mem_of_mem_filter hsm))

theorem starterReady_transport {par : Path} {fs fs2 : FSNode} {ms : Path}
    (hstep : StepOK par fs fs2) (hms : OffPar par ms)
    (h : starterReadyB fs ms par = true) : starterReadyB fs2 ms par = true := by
  unfold starterReadyB at h ⊢
  rw [pathExists_congr (hstep.1 ms hms.1 hms.2)]
  by_cases hex : pathExists fs ms = true
  · rw [hex] at h ⊢
    simp only [Bool.not_true, Bool.false_or] at h ⊢
    exact hstep.2 _ (isUnder_append par [pName ms]) (by simp) h
  · have hex2 : pathExists fs ms = false := by
      rw [Bool.not_eq_true] at hex
      exact hex
    rw [hex2]
    simp

theorem copyMultiplayerMods_noop {fail : Fail} {par : Path} {m : String} {fs : FSNode}
    {mm ms : Path} (h1 : settledB fs mm (par ++ [m]) = true)
    (h2 : starterReadyB fs ms par = true) :
    copyMultiplayerMods fail fs mm ms (par ++ [m]) false = (fs, 0) := by
  unfold copyMultiplayerMods
  rw [dropLast_snoc]
  simp only [Bool.not_false]
  have hst1 : (if pathExists fs mm = true then
      ((copyModItem fail fs mm (par ++ [m]) true).1,
        if (copyModItem fail fs mm (par ++ [m]) true).2 then 1 else 0)
    else (fs, 0)) = (fs, 0) := by
    by_cases hex : pathExists fs mm = true
    · rw [if_pos hex, settled_skip fail h1]
      simp
    · rw [if_neg hex]
  rw [hst1]
  by_cases hs : pathExists fs ms = true
  · have hdst : pathExists fs (par ++ [pName ms]) = true := by
      unfold starterReadyB at h2
      rw [hs] at h2
      simpa using h2
    rw [if_pos hs, if_neg (by rw [hdst]; simp)]
  · rw [if_neg hs]

theorem copyOptLib_noop {fail : Fail} {par : Path} {m : String} {fs : FSNode} {c : Nat}
    {p? : Option Path} (h : ∀ s ∈ p?.toList, settledB fs s (par ++ [m]) = true) :
    copyOptLib fail (fs, c) p? (par ++ [m]) false = (fs, c) := by
  unfold copyOptLib
  cases p? with
  | none => rfl
  | some p =>
      simp only [Bool.not_false]
      rw [settled_skip fail (h p (by simp))]
      simp

theorem copyLibraryMods_noop {fail : Fail} {par : Path} {m : String} {fs : FSNode}
    {s1 ue : Option Path} (h1 : ∀ s ∈ s1.toList, settledB fs s (par ++ [m]) = true)
    (h2 : ∀ s ∈ ue.toList, settledB fs s (par ++ [m]) = true) :
    copyLibraryMods fail fs s1 ue (par ++ [m]) false = (fs, 0) := by
  unfold copyLibraryMods
  rw [copyOptLib_noop h1, copyOptLib_noop h2]

/-! ## First-run postconditions -/

theorem goodSrc_congr {fs fs2 : FSNode} {par s : Path} (heq : fs2.lookup s = fs.lookup s)
    (h : GoodSrc fs par s) : GoodSrc fs2 par s := by
  obtain ⟨hoff, hmods⟩ := h
  refine ⟨hoff, ?_⟩
  rw [hasStructureAt_congr heq, modsNonemptyB_congr heq]
  exact hmods

theorem foldMods_establishes {par : Path} {m : String} {fs0 : FSNode} :
    ∀ (L : List Path) (acc : FSNode × Nat),
      (∀ s ∈ L, GoodSrc fs0 par s) → StepOK par fs0 acc.1 →
      StepOK par acc.1 (L.foldl (fun acc p =>
          let r := copyModItem noFail acc.1 p (par ++ [m]) true
          (r.1, acc.2 + (if r.2 then 1 else 0))) acc).1 ∧
      (∀ s ∈ L, settledB (L.foldl (fun acc p =>
          let r := copyModItem noFail acc.1 p (par ++ [m]) true
          (r.1, acc.2 + (if r.2 then 1 else 0))) acc).1 s (par ++ [m]) = true) := by
  intro L
  induction L with
  | nil =>
      intro acc _ _
      exact ⟨StepOK.refl par acc.1, by simp⟩
  | cons p L ih =>
      intro acc hL hacc
      have hgp : GoodSrc fs0 par p := hL p (by simp)
      have hgp2 : GoodSrc acc.1 par p :=
        goodSrc_congr (hacc.1 p hgp.1.1 hgp.1.2) hgp
      have hstepP := stepOK_copyModItem (m := m) noFail acc.1 hgp.1 true
      have hsetP := copyModItem_establishes (m := m) hgp2.1 hgp2.2
      rw [List.foldl_cons]
      have hrec := ih ((copyModItem noFail acc.1 p (par ++ [m]) true).1,
          acc.2 + (if (copyModItem noFail acc.1 p (par ++ [m]) true).2 then 1 else 0))
        (fun s hsm => hL s (by simp [hsm])) (hacc.trans hstepP)
      refine ⟨hstepP.trans hrec.1, ?_⟩
      intro s hsm
      rcases List.mem_cons.mp hsm with rfl | hsm2
      · exact settledB_transport hrec.1 hgp.1 hsetP
      · exact hrec.2 s hsm2

theorem copyUserMods_establishes {par : Path} {m : String} {fs0 fs : FSNode}
    {L : List Path} (hL : ∀ s ∈ L, GoodSrc fs0 par s) (hfs : StepOK par fs0 fs) :
    StepOK par fs (copyUserMods noFail fs L (par ++ [m]) false).1 ∧
    (∀ s ∈ L, settledB (copyUserMods noFail fs L (par ++ [m]) false).1 s (par ++ [m]) = true) := by
  unfold copyUserMods
  simp only [Bool.not_false]
  have hmain := foldMods_establishes (m := m)
    (L.filter fun p => pathExists fs p) (fs, 0)
    (fun s hsm => hL s (List.mem_of_mem_filter hsm)) hfs
  refine ⟨hmain.1, ?_⟩
  intro s hsm
  by_cases hv : pathExists fs s = true
  · exact hmain.2 s (List.mem_filter.mpr ⟨hsm, hv⟩)
  · -- s was dropped by the pre-filter: still missing afterwards, hence settled
    have hoff := (hL s hsm).1
    have heq := hmain.1.1 s hoff.1 hoff.2
    refine settledB_of_missing ?_
    rw [pathExists_congr heq]
    rw [Bool.not_eq_true] at hv
    exact hv


theorem copyMultiplayerMods_establishes {par : Path} {m : String} {fs0 fs : FSNode}
    {mm ms : Path} (hg : GoodSrc fs0 par mm) (hms : OffPar par ms)
    (hfs : StepOK par fs0 fs) :
    StepOK par fs (copyMultiplayerMods noFail fs mm ms (par ++ [m]) false).1 ∧
    settledB (copyMultiplayerMods noFail fs mm ms (par ++ [m]) false).1 mm (par ++ [m]) = true ∧
    starterReadyB (copyMultiplayerMods noFail fs mm ms (par ++ [m]) false).1 ms par = true := by
  have hg2 : GoodSrc fs par mm := goodSrc_congr (hfs.1 mm hg.1.1 hg.1.2) hg
  unfold copyMultiplayerMods
  rw [dropLast_snoc]
  simp only [Bool.not_false]
  have hstage1 : StepOK par fs (if pathExists fs mm = true then
      ((copyModItem noFail fs mm (par ++ [m]) true).1,
        if (copyModItem noFail fs mm (par ++ [m]) true).2 then 1 else 0)
    else (fs, 0)).1 ∧ settledB (if pathExists fs mm = true then
      ((copyModItem noFail fs mm (par ++ [m]) true).1,
        if (copyModItem noFail fs mm (par ++ [m]) true).2 then 1 else 0)
    else (fs, 0)).1 mm (par ++ [m]) = true := by
    by_cases hex : pathExists fs mm = true
    · rw [if_pos hex]
      exact ⟨stepOK_copyModItem noFail fs hg2.1 true,
        copyModItem_establishes hg2.1 hg2.2⟩
    · rw [if_neg hex]
      refine ⟨StepOK.refl par fs, settledB_of_missing ?_⟩
      rw [Bool.not_eq_true] at hex
      exact hex
  obtain ⟨hst1, hset1⟩ := hstage1
  by_cases hsx : pathExists (if pathExists fs mm = true then
      ((copyModItem noFail fs mm (par ++ [m]) true).1,
        if (copyModItem noFail fs mm (par ++ [m]) true).2 then 1 else 0)
    else (fs, 0)).1 ms = true
  · rw [if_pos hsx]
    by_cases hdst : (!(pathExists (if pathExists fs mm = true then
        ((copyModItem noFail fs mm (par ++ [m]) true).1,
          if (copyModItem noFail fs mm (par ++ [m]) true).2 then 1 else 0)
      else (fs, 0)).1 (par ++ [pName ms])) || false) = true
    · rw [if_pos hdst, if_neg (by simp [noFail])]
      have hcopy := stepOK_shCopy2
        (if pathExists fs mm = true then
          ((copyModItem noFail fs mm (par ++ [m]) true).1,
            if (copyModItem noFail fs mm (par ++ [m]) true).2 then 1 else 0)
        else (fs, 0)).1 ms (isUnder_append par [pName ms]) (by simp) (by simp)
      refine ⟨hst1.trans hcopy, settledB_transport hcopy hg2.1 hset1, ?_⟩
      unfold starterReadyB
      -- the copy wrote the starter destination (or into it, if it is a directory)
      unfold shCopy2
      cases hlx : (if pathExists fs mm = true then
          ((copyModItem noFail fs mm (par ++ [m]) true).1,
            if (copyModItem noFail fs mm (par ++ [m]) true).2 then 1 else 0)
        else (fs, 0)).1.lookup ms with
      | none =>
          rw [pathExists, hlx] at hsx
          cases hsx
      | some node =>
          dsimp only
          by_cases hd : isDirAt (if pathExists fs mm = true then
              ((copyModItem noFail fs mm (par ++ [m]) true).1,
                if (copyModItem noFail fs mm (par ++ [m]) true).2 then 1 else 0)
            else (fs, 0)).1 (par ++ [pName ms]) = true
          · rw [if_pos hd]
            rw [pathExists_setPath_under (isUnder_append _ _)]
            simp
          · rw [if_neg hd]
            have : pathExists ((if pathExists fs mm = true then
                ((copyModItem noFail fs mm (par ++ [m]) true).1,
                  if (copyModItem noFail fs mm (par ++ [m]) true).2 then 1 else 0)
              else (fs, 0)).1.setPath (par ++ [pName ms]) node) (par ++ [pName ms]) = true := by
              unfold pathExists
              rw [lookup_setPath_self]
              rfl
            rw [this]
            simp
    · rw [if_neg hdst]
      refine ⟨hst1, hset1, ?_⟩
      unfold starterReadyB
      have : pathExists (if pathExists fs mm = true then
          ((copyModItem noFail fs mm (par ++ [m]) true).1,
            if (copyModItem noFail fs mm (par ++ [m]) true).2 then 1 else 0)
        else (fs, 0)).1 (par ++ [pName ms]) = true := by
        rw [Bool.not_eq_true] at hdst
        simpa using hdst
      rw [this]
      simp
  · rw [if_neg hsx]
    refine ⟨hst1, hset1, ?_⟩
    unfold starterReadyB
    rw [Bool.not_eq_true] at hsx
    rw [hsx]
    simp

theorem copyOptLib_establishes {par : Path} {m : String} {fs0 : FSNode} (st : FSNode × Nat)
    {p? : Option Path} (hg : ∀ s ∈ p?.toList, GoodSrc fs0 par s)
    (hfs : StepOK par fs0 st.1) :
    StepOK par st.1 (copyOptLib noFail st p? (par ++ [m]) false).1 ∧
    (∀ s ∈ p?.toList, settledB (copyOptLib noFail st p? (par ++ [m]) false).1 s (par ++ [m]) = true) := by
  unfold copyOptLib
  cases p? with
  | none => exact ⟨StepOK.refl par st.1, by simp⟩
  | some p =>
      simp only [Bool.not_false]
      have hgp : GoodSrc fs0 par p := hg p (by simp)
      have hgp2 : GoodSrc st.1 par p := goodSrc_congr (hfs.1 p hgp.1.1 hgp.1.2) hgp
      refine ⟨stepOK_copyModItem noFail st.1 hgp.1 true, ?_⟩
      intro s hsm
      have hsp : s = p := by simpa using hsm
      subst hsp
      exact copyModItem_establishes hgp2.1 hgp2.2

theorem copyLibraryMods_establishes {par : Path} {m : String} {fs0 fs : FSNode}
    {s1 ue : Option Path} (h1 : ∀ s ∈ s1.toList, GoodSrc fs0 par s)
    (h2 : ∀ s ∈ ue.toList, GoodSrc fs0 par s) (hfs : StepOK par fs0 fs) :
    StepOK par fs (copyLibraryMods noFail fs s1 ue (par ++ [m]) false).1 ∧
    (∀ s ∈ s1.toList, settledB (copyLibraryMods noFail fs s1 ue (par ++ [m]) false).1 s (par ++ [m]) = true) ∧
    (∀ s ∈ ue.toList, settledB (copyLibraryMods noFail fs s1 ue (par ++ [m]) false).1 s (par ++ [m]) = true) := by
  unfold copyLibraryMods
  have ha := copyOptLib_establishes (m := m) (fs, 0) h1 hfs
  have hb := copyOptLib_establishes (m := m)
    (copyOptLib noFail (fs, 0) s1 (par ++ [m]) false) h2 (hfs.trans ha.1)
  refine ⟨ha.1.trans hb.1, ?_, hb.2⟩
  intro s hsm
  exact settledB_transport hb.1 (h1 s hsm).1 (ha.2 s hsm)

theorem copyItem_file_eq {fs : FSNode} {target d : Path} {c : Nat}
    (hlk : fs.lookup target = some (.file c)) :
    copyItem fs target d =
      if isDirAt fs (d ++ [pName target]) = true
      then fs.setPath ((d ++ [pName target]) ++ [pName target]) (.file c)
      else fs.setPath (d ++ [pName target]) (.file c) := by
  have hnd : isDirAt fs target = false := by
    unfold isDirAt
    rw [hlk]
  unfold copyItem shCopy2
  rw [if_neg (by rw [hnd]; simp), hlk]

theorem copyItem_file_idem {par : Path} {m : String} {fs : FSNode} {target : Path}
    (htf : isFileAt fs target = true) (hT : OffPar par target) :
    copyItem (copyItem fs target (par ++ [m])) target (par ++ [m]) =
      copyItem fs target (par ++ [m]) := by
  obtain ⟨c, hlk⟩ := isFileAt_iff_lookup.mp htf
  rw [copyItem_file_eq hlk]
  by_cases hd : isDirAt fs ((par ++ [m]) ++ [pName target]) = true
  · rw [if_pos hd]
    have hstep := stepOK_setPath_deep (t := ((par ++ [m]) ++ [pName target]) ++ [pName target])
      fs (FSNode.file c)
      (isUnder_trans (snoc2_under par m (pName target)) (isUnder_append _ _))
      (by simp only [List.length_append, List.length_cons, List.length_nil]; omega)
    have hlk2 : (fs.setPath (((par ++ [m]) ++ [pName target]) ++ [pName target])
        (FSNode.file c)).lookup target = some (.file c) :=
      (hstep.1 target hT.1 hT.2).trans hlk
    rw [copyItem_file_eq hlk2]
    obtain ⟨es2, hes2⟩ := lookup_setPath_extend fs (FSNode.file c)
      ((par ++ [m]) ++ [pName target]) (pName target) []
    rw [if_pos (isDirAt_iff_lookup.mpr ⟨es2, hes2⟩)]
    exact setPath_eq_of_lookup (lookup_setPath_self _ _ _)
  · rw [if_neg hd]
    have hstep := stepOK_setPath_deep fs (FSNode.file c)
      (snoc2_under par m (pName target))
      (by simp only [List.length_append, List.length_cons, List.length_nil]; omega)
    have hlk2 : (fs.setPath ((par ++ [m]) ++ [pName target]) (FSNode.file c)).lookup target =
        some (.file c) :=
      (hstep.1 target hT.1 hT.2).trans hlk
    rw [copyItem_file_eq hlk2]
    rw [if_neg (by unfold isDirAt; rw [lookup_setPath_self]; simp)]
    exact setPath_eq_of_lookup (lookup_setPath_self _ _ _)


theorem ite_done_eq {c : Prop} [Decidable c] {A : FSNode} {B : Nat} {t1 t2 tr : List Action}
    (h : (if c then t1 else t2) = tr) :
    (if c then RunResult.done A B t1 else RunResult.done A B t2) = RunResult.done A B tr := by
  by_cases hc : c
  · rw [if_pos hc] at h ⊢
    rw [h]
  · rw [if_neg hc] at h ⊢
    rw [h]

theorem len_snoc_le (par : Path) (m : String) : (par ++ [m]).length ≤ par.length + 2 := by
  simp only [List.length_append, List.length_cons, List.length_nil]
  omega

theorem mainRun_run1 {kw : WaitResult} {cfg : Config} {fs : FSNode} {par : Path} {m : String}
    (hmd : cfg.modsDir = par ++ [m])
    (hforce : cfg.forceCopy = false) (hclean : cfg.clean = false)
    (ht : isFileAt fs cfg.target = true) (hT : OffPar par cfg.target)
    (hsrc : ∀ s ∈ addonSources cfg, GoodSrc fs par s)
    (hstart : ∀ s ∈ cfg.mpStarter.toList, OffPar par s)
    (hg2 : (cfg.mpMod.isSome && cfg.mpStarter.isNone) = false)
    (hg3 : (cfg.mpStarter.isSome && cfg.mpMod.isNone) = false)
    (hg4 : (cfg.useWine && !cfg.wineBinaryFound) = false) :
    ∃ fs5 c, mainRun noFail kw cfg fs =
        .done (copyItem fs5 cfg.target (par ++ [m])) (c + 1) (traceExpr cfg kw) ∧
      StepOK par fs (copyItem fs5 cfg.target (par ++ [m])) ∧
      isFileAt fs5 cfg.target = true ∧
      pathExists (copyItem fs5 cfg.target (par ++ [m])) (par ++ [m]) = true ∧
      (∀ s ∈ addonSources cfg,
        settledB (copyItem fs5 cfg.target (par ++ [m])) s (par ++ [m]) = true) ∧
      (∀ ms ∈ cfg.mpStarter.toList,
        starterReadyB (copyItem fs5 cfg.target (par ++ [m])) ms par = true) := by
  have hmods_good : ∀ s ∈ cfg.mods, GoodSrc fs par s := by
    intro s hsm
    exact hsrc s (by simp [addonSources, hsm])
  have hs1_good : ∀ s ∈ cfg.s1apiPath.toList, GoodSrc fs par s := by
    intro s hsm
    exact hsrc s (by simp [addonSources, hsm])
  have hue_good : ∀ s ∈ cfg.unityExplorerPath.toList, GoodSrc fs par s := by
    intro s hsm
    exact hsrc s (by simp [addonSources, hsm])
  rcases hm1 : cfg.mpMod with _ | mm <;> rcases hm2 : cfg.mpStarter with _ | ms
  · -- no multiplayer inputs
    unfold mainRun
    rw [pathExists_of_isFileAt ht]
    simp only [hm1, hm2, hg4, hmd, hforce, hclean, Option.isSome_none, Option.isNone_none,
      Bool.false_and, Bool.and_false, Bool.not_true, Bool.false_eq_true, if_false]
    have hA : StepOK par fs (ensureDirAt fs (par ++ [m])) := stepOK_ensureModsDir fs
    have hU := copyUserMods_establishes (m := m) hmods_good hA
    have hL := copyLibraryMods_establishes (m := m) hs1_good hue_good
      (hA.trans hU.1)
    have hT5 : isFileAt (copyLibraryMods noFail
        (copyUserMods noFail (ensureDirAt fs (par ++ [m])) cfg.mods (par ++ [m]) false).1
        cfg.s1apiPath cfg.unityExplorerPath (par ++ [m]) false).1 cfg.target = true := by
      rw [isFileAt_congr (((hA.trans hU.1).trans hL.1).1 cfg.target hT.1 hT.2)]
      exact ht
    have hIT := stepOK_copyItem (m := m) (copyLibraryMods noFail
        (copyUserMods noFail (ensureDirAt fs (par ++ [m])) cfg.mods (par ++ [m]) false).1
        cfg.s1apiPath cfg.unityExplorerPath (par ++ [m]) false).1 hT
    refine ⟨_, _, ite_done_eq ?_, ((hA.trans hU.1).trans hL.1).trans hIT, hT5, ?_, ?_, ?_⟩
    · unfold traceExpr
      rw [hclean, hm1, hm2]
      simp only [Option.isSome_none, Bool.false_and, Bool.false_eq_true, if_false]
    · exact ((hU.1.trans hL.1).trans hIT).2 (par ++ [m]) (isUnder_append par [m])
        (len_snoc_le par m) (ensureDirAt_self fs (par ++ [m]))
    · intro s hsm
      rw [addonSources, hm1] at hsm
      simp only [Option.toList_none, List.append_nil, List.mem_append] at hsm
      rcases hsm with (hsm | hsm) | hsm
      · exact settledB_transport (hL.1.trans hIT) (hmods_good s hsm).1 (hU.2 s hsm)
      · exact settledB_transport hIT (hs1_good s hsm).1 (hL.2.1 s hsm)
      · exact settledB_transport hIT (hue_good s hsm).1 (hL.2.2 s hsm)
    · intro s hsm
      simp at hsm
  · -- starter without mod: excluded by hg3
    exfalso
    rw [hm1, hm2] at hg3
    simp at hg3
  · -- mod without starter: excluded by hg2
    exfalso
    rw [hm1, hm2] at hg2
    simp at hg2
  · -- both multiplayer inputs present
    have hmm_good : GoodSrc fs par mm := by
      refine hsrc mm ?_
      rw [addonSources, hm1]
      simp
    have hms_off : OffPar par ms := by
      refine hstart ms ?_
      rw [hm2]
      simp
    unfold mainRun
    rw [pathExists_of_isFileAt ht]
    simp only [hm1, hm2, hg4, hmd, hforce, hclean, Option.isSome_some, Option.isNone_some,
      Bool.and_false, Bool.and_self, Bool.not_true, Bool.false_eq_true, if_false]
    have hA : StepOK par fs (ensureDirAt fs (par ++ [m])) := stepOK_ensureModsDir fs
    have hU := copyUserMods_establishes (m := m) hmods_good hA
    have hMp := copyMultiplayerMods_establishes (m := m)
      hmm_good hms_off (hA.trans hU.1)
    have hL := copyLibraryMods_establishes (m := m) hs1_good hue_good
      ((hA.trans hU.1).trans hMp.1)
    have hT5 : isFileAt (copyLibraryMods noFail
        (copyMultiplayerMods noFail
          (copyUserMods noFail (ensureDirAt fs (par ++ [m])) cfg.mods (par ++ [m]) false).1
          mm ms (par ++ [m]) false).1
        cfg.s1apiPath cfg.unityExplorerPath (par ++ [m]) false).1 cfg.target = true := by
      rw [isFileAt_congr ((((hA.trans hU.1).trans hMp.1).trans hL.1).1 cfg.target hT.1 hT.2)]
      exact ht
    have hIT := stepOK_copyItem (m := m) (copyLibraryMods noFail
        (copyMultiplayerMods noFail
          (copyUserMods noFail (ensureDirAt fs (par ++ [m])) cfg.mods (par ++ [m]) false).1
          mm ms (par ++ [m]) false).1
        cfg.s1apiPath cfg.unityExplorerPath (par ++ [m]) false).1 hT
    refine ⟨_, _, ite_done_eq ?_, (((hA.trans hU.1).trans hMp.1).trans hL.1).trans hIT,
      hT5, ?_, ?_, ?_⟩
    · unfold traceExpr
      rw [hclean, hm1, hm2]
      simp only [Option.isSome_some, Bool.and_self, Bool.false_eq_true, if_false, if_true]
    · exact (((hU.1.trans hMp.1).trans hL.1).trans hIT).2 (par ++ [m])
        (isUnder_append par [m]) (len_snoc_le par m) (ensureDirAt_self fs (par ++ [m]))
    · intro s hsm
      rw [addonSources, hm1] at hsm
      simp only [Option.toList_some, List.mem_append, List.mem_singleton] at hsm
      rcases hsm with ((hsm | hsm) | hsm) | hsm
      · exact settledB_transport ((hMp.1.trans hL.1).trans hIT) (hmods_good s hsm).1
          (hU.2 s hsm)
      · subst hsm
        exact settledB_transport (hL.1.trans hIT) hmm_good.1 hMp.2.1
      · exact settledB_transport hIT (hs1_good s hsm).1 (hL.2.1 s hsm)
      · exact settledB_transport hIT (hue_good s hsm).1 (hL.2.2 s hsm)
    · intro s hsm
      simp only [Option.toList_some, List.mem_singleton] at hsm
      subst hsm
      exact starterReady_transport (hL.1.trans hIT) hms_off hMp.2.2


theorem mainRun_settled {kw : WaitResult} {cfg : Config} {fs1 : FSNode} {par : Path} {m : String}
    (hmd : cfg.modsDir = par ++ [m])
    (hforce : cfg.forceCopy = false) (hclean : cfg.clean = false)
    (ht : isFileAt fs1 cfg.target = true)
    (hmde : pathExists fs1 (par ++ [m]) = true)
    (hset : ∀ s ∈ addonSources cfg, settledB fs1 s (par ++ [m]) = true)
    (hready : ∀ ms ∈ cfg.mpStarter.toList, starterReadyB fs1 ms par = true)
    (hidem : copyItem fs1 cfg.target (par ++ [m]) = fs1)
    (hg2 : (cfg.mpMod.isSome && cfg.mpStarter.isNone) = false)
    (hg3 : (cfg.mpStarter.isSome && cfg.mpMod.isNone) = false)
    (hg4 : (cfg.useWine && !cfg.wineBinaryFound) = false) :
    mainRun noFail kw cfg fs1 = .done fs1 1 (traceExpr cfg kw) := by
  have hmods_set : ∀ s ∈ cfg.mods, settledB fs1 s (par ++ [m]) = true := by
    intro s hsm
    exact hset s (by simp [addonSources, hsm])
  have hs1_set : ∀ s ∈ cfg.s1apiPath.toList, settledB fs1 s (par ++ [m]) = true := by
    intro s hsm
    exact hset s (by simp [addonSources, hsm])
  have hue_set : ∀ s ∈ cfg.unityExplorerPath.toList, settledB fs1 s (par ++ [m]) = true := by
    intro s hsm
    exact hset s (by simp [addonSources, hsm])
  rcases hm1 : cfg.mpMod with _ | mm <;> rcases hm2 : cfg.mpStarter with _ | ms
  · unfold mainRun
    rw [pathExists_of_isFileAt ht]
    simp only [hm1, hm2, hg4, hmd, hforce, hclean, Option.isSome_none, Option.isNone_none,
      Bool.false_and, Bool.and_false, Bool.not_true, Bool.false_eq_true, if_false]
    rw [ensureDirAt_noop hmde, copyUserMods_noop hmods_set]
    rw [copyLibraryMods_noop hs1_set hue_set, hidem]
    refine ite_done_eq ?_
    unfold traceExpr
    rw [hclean, hm1, hm2]
    simp only [Option.isSome_none, Bool.false_and, Bool.false_eq_true, if_false]
  · exfalso
    rw [hm1, hm2] at hg3
    simp at hg3
  · exfalso
    rw [hm1, hm2] at hg2
    simp at hg2
  · have hmm_set : settledB fs1 mm (par ++ [m]) = true := by
      refine hset mm ?_
      rw [addonSources, hm1]
      simp
    have hms_ready : starterReadyB fs1 ms par = true := by
      refine hready ms ?_
      rw [hm2]
      simp
    unfold mainRun
    rw [pathExists_of_isFileAt ht]
    simp only [hm1, hm2, hg4, hmd, hforce, hclean, Option.isSome_some, Option.isNone_some,
      Bool.and_false, Bool.and_self, Bool.not_true, Bool.false_eq_true, if_false]
    rw [ensureDirAt_noop hmde, copyUserMods_noop hmods_set]
    rw [copyMultiplayerMods_noop hmm_set hms_ready]
    rw [copyLibraryMods_noop hs1_set hue_set, hidem]
    refine ite_done_eq ?_
    unfold traceExpr
    rw [hclean, hm1, hm2]
    simp only [Option.isSome_some, Bool.and_self, Bool.false_eq_true, if_false, if_true]


/-- Claim C1 (amended): with force disabled and cleaning disabled, sources
resolved outside the game directory, a primary build artifact that is a
regular file, and every structured-tree add-on having a populated Mods
sub-root, running the pipeline twice with no filesystem changes in between
completes both times, leaves the destination tree after the second run
equal to the tree after the first run, counts at least the primary
artifact on the first run, and on the second run copies exactly one item
-- the primary build artifact -- while every add-on is skipped (add-on
copied-count zero). -/
theorem c1_pipeline_idempotent (kw : WaitResult) (cfg : Config) (fs : FSNode)
    (par : Path) (m : String)
    (hmd : cfg.modsDir = par ++ [m])
    (hforce : cfg.forceCopy = false) (hclean : cfg.clean = false)
    (ht : isFileAt fs cfg.target = true) (hT : OffPar par cfg.target)
    (hsrc : ∀ s ∈ addonSources cfg, GoodSrc fs par s)
    (hstart : ∀ s ∈ cfg.mpStarter.toList, OffPar par s)
    (hg2 : (cfg.mpMod.isSome && cfg.mpStarter.isNone) = false)
    (hg3 : (cfg.mpStarter.isSome && cfg.mpMod.isNone) = false)
    (hg4 : (cfg.useWine && !cfg.wineBinaryFound) = false) :
    (mainRun noFail kw cfg fs).isDone = true ∧
    1 ≤ (mainRun noFail kw cfg fs).copiedOf ∧
    mainRun noFail kw cfg (mainRun noFail kw cfg fs).fsOf =
      .done (mainRun noFail kw cfg fs).fsOf 1 (mainRun noFail kw cfg fs).traceOf := by
  obtain ⟨fs5, c, heq, hstep, ht5, hmde, hset, hready⟩ :=
    mainRun_run1 hmd hforce hclean ht hT hsrc hstart hg2 hg3 hg4
  rw [heq]
  refine ⟨rfl, by simp [RunResult.copiedOf], ?_⟩
  simp only [RunResult.fsOf, RunResult.traceOf]
  have ht1 : isFileAt (copyItem fs5 cfg.target (par ++ [m])) cfg.target = true := by
    rw [isFileAt_congr (hstep.1 cfg.target hT.1 hT.2)]
    exact ht
  exact mainRun_settled hmd hforce hclean ht1 hmde hset hready
    (copyItem_file_idem ht5 hT) hg2 hg3 hg4


/-- Witness for c1_pipeline_idempotent at a concrete configuration. -/
theorem c1_pipeline_idempotent_witness :
    (mainRun noFail .stopped exCfg exFS).isDone = true ∧
    1 ≤ (mainRun noFail .stopped exCfg exFS).copiedOf ∧
    mainRun noFail .stopped exCfg (mainRun noFail .stopped exCfg exFS).fsOf =
      .done (mainRun noFail .stopped exCfg exFS).fsOf 1
        (mainRun noFail .stopped exCfg exFS).traceOf :=
  c1_pipeline_idempotent .stopped exCfg exFS ["game"] "Mods" rfl rfl rfl (by decide)
    (by decide) (by decide) (by decide) rfl rfl rfl

/-- Counterexample to claim C1 as stated: with a structured add-on whose
only sub-root is a plugins directory, the second run re-copies the add-on,
so the total for the second run is 2 (one add-on plus the primary
artifact), not 1 as a zero add-on count would give; the claim says the
second run's copied-count for add-ons is zero. -/
theorem c1_counterexample :
    (mainRun noFail .stopped exCfgP exFS).isDone = true ∧
    (mainRun noFail .stopped exCfgP (mainRun noFail .stopped exCfgP exFS).fsOf).copiedOf = 2 := by
  constructor
  · rfl
  · rfl


/-- Claim C2 (amended): for an existing add-on source, the copy/skip
outcome of copy_mod_item is a deterministic function of the pair
(destination-occupancy test, skip flag), where the occupancy test is the
one the code performs for the layout at hand: target-name existence for a
single file or flat folder, and existence of some Mods sub-root entry at
the destination for a structured tree (a structured add-on without a Mods
sub-root is never skipped, even when its payload is present at the
destination).  The outcome is Skip exactly when the flag is set and the
test holds, and a skip performs no filesystem change.  (The flat-folder
case excludes a destination occupied by a regular file, where the
replacement raises and the item is reported failed.) -/
theorem c2_skip_force_law (fs : FSNode) (s d : Path) (skip : Bool)
    (hex : pathExists fs s = true)
    (hkind : ¬(isFileAt fs s = false ∧ hasStructureAt fs s = false ∧
        pathExists fs (d ++ [pName s]) = true ∧ isFileAt fs (d ++ [pName s]) = true)) :
    ((copyModItem noFail fs s d skip).2 = false ↔ (skip = true ∧ destBlocked fs s d = true)) ∧
    ((skip = true ∧ destBlocked fs s d = true) → (copyModItem noFail fs s d skip).1 = fs) := by
  unfold copyModItem destBlocked
  rw [hex, if_neg (by simp)]
  by_cases hfile : isFileAt fs s = true
  · rw [if_pos hfile, if_pos hfile]
    by_cases hskip : (skip && pathExists fs (d ++ [pName s])) = true
    · rw [if_pos hskip]
      rw [Bool.and_eq_true] at hskip
      simp [hskip]
    · rw [if_neg hskip, if_neg (by simp [noFail])]
      rw [Bool.and_eq_true] at hskip
      exact ⟨by simpa using hskip, fun hcon => absurd hcon hskip⟩
  · rw [if_neg hfile, if_neg hfile]
    by_cases hstr : hasStructureAt fs s = true
    · rw [if_pos hstr, if_pos hstr]
      by_cases hskip : (skip && modsRootBlocked fs s d) = true
      · rw [if_pos hskip]
        rw [Bool.and_eq_true] at hskip
        simp [hskip]
      · rw [if_neg hskip]
        rw [Bool.and_eq_true] at hskip
        exact ⟨by simpa using hskip, fun hcon => absurd hcon hskip⟩
    · rw [if_neg hstr, if_neg hstr]
      by_cases hskip : (skip && pathExists fs (d ++ [pName s])) = true
      · rw [if_pos hskip]
        rw [Bool.and_eq_true] at hskip
        simp [hskip]
      · rw [if_neg hskip]
        by_cases htex : pathExists fs (d ++ [pName s]) = true
        · by_cases htf : isFileAt fs (d ++ [pName s]) = true
          · exact absurd ⟨by simpa using hfile, by simpa using hstr, htex, htf⟩ hkind
          · rw [if_neg (by rw [htex]; simpa using htf), if_neg (by simp [noFail])]
            rw [Bool.and_eq_true] at hskip
            exact ⟨by simpa using hskip, fun hcon => absurd hcon hskip⟩
        · have htex2 : pathExists fs (d ++ [pName s]) = false := by
            rw [Bool.not_eq_true] at htex
            exact htex
          rw [if_neg (by rw [htex2]; simp), if_neg (by simp [noFail])]
          rw [Bool.and_eq_true] at hskip
          exact ⟨by simpa using hskip, fun hcon => absurd hcon hskip⟩

/-- Witness for c2_skip_force_law: a single-file add-on already present at
the destination is skipped under skip_if_exists and the state is
unchanged. -/
theorem c2_skip_force_law_witness :
    ((copyModItem noFail exFS ["addons", "Single.dll"] ["game", "Mods"] true).2 = false ↔
      (true = true ∧ destBlocked exFS ["addons", "Single.dll"] ["game", "Mods"] = true)) ∧
    ((true = true ∧ destBlocked exFS ["addons", "Single.dll"] ["game", "Mods"] = true) →
      (copyModItem noFail exFS ["addons", "Single.dll"] ["game", "Mods"] true).1 = exFS) :=
  c2_skip_force_law exFS ["addons", "Single.dll"] ["game", "Mods"] true (by decide) (by decide)

/-- Counterexample to claim C2 as stated: a structured add-on whose only
sub-root is a plugins directory and whose payload Baz.dll is already
present at the destination is nevertheless copied under
skip_if_exists = true (force = false): copy_mod_item returns True and the
stale destination file is overwritten. -/
theorem c2_counterexample :
    pathExists exFSP ["game", "Plugins", "Baz.dll"] = true ∧
    (copyModItem noFail exFSP ["addons", "PluginOnly"] ["game", "Mods"] true).2 = true ∧
    (copyModItem noFail exFSP ["addons", "PluginOnly"] ["game", "Mods"] true).1.lookup
      ["game", "Plugins", "Baz.dll"] = some (.file 4) ∧
    exFSP.lookup ["game", "Plugins", "Baz.dll"] = some (.file 9) :=
  ⟨rfl, rfl, rfl, rfl⟩


/-- Claim C3: when exactly one of the multiplayer mod and multiplayer
starter options is supplied, main aborts with exit code 1 before any
copy, clean, termination or launch action (the state is returned
unchanged and the action trace is empty); when both or neither are
supplied the pairing check passes and the run never exits fatally,
provided the target exists and the wine binary check passes. -/
theorem c3_mp_pairing_abort (fail : Fail) (kw : WaitResult) (cfg : Config) (fs : FSNode) :
    (cfg.mpMod.isSome ≠ cfg.mpStarter.isSome → mainRun fail kw cfg fs = .fatal 1 fs []) ∧
    (cfg.mpMod.isSome = cfg.mpStarter.isSome → pathExists fs cfg.target = true →
      (cfg.useWine = true → cfg.wineBinaryFound = true) →
      ∀ code fs2 tr, mainRun fail kw cfg fs ≠ .fatal code fs2 tr) := by
  constructor
  · intro hne
    unfold mainRun
    by_cases hpe : pathExists fs cfg.target = true
    · rw [hpe, if_neg (by simp)]
      rcases hm1 : cfg.mpMod with _ | mm <;> rcases hm2 : cfg.mpStarter with _ | ms
      · rw [hm1, hm2] at hne
        exact absurd rfl hne
      · simp
      · simp
      · rw [hm1, hm2] at hne
        exact absurd rfl hne
    · have hpe2 : pathExists fs cfg.target = false := by
        rw [Bool.not_eq_true] at hpe
        exact hpe
      rw [hpe2, if_pos (by simp)]
  · intro hsame hpe hw
    have hg2 : (cfg.mpMod.isSome && cfg.mpStarter.isNone) = false := by
      rcases hm2 : cfg.mpStarter with _ | ms
      · rw [hm2] at hsame
        simp [hm2, hsame]
      · simp [hm2]
    have hg3 : (cfg.mpStarter.isSome && cfg.mpMod.isNone) = false := by
      rcases hm1 : cfg.mpMod with _ | mm
      · rw [hm1] at hsame
        simp [hm1, ← hsame]
      · simp [hm1]
    have hg4 : (cfg.useWine && !cfg.wineBinaryFound) = false := by
      cases hu : cfg.useWine
      · rfl
      · rw [hw hu]
        rfl
    have hdone : (mainRun fail kw cfg fs).isDone = true := by
      unfold mainRun
      rw [hpe, if_neg (by simp), hg2, if_neg (by simp), hg3, if_neg (by simp), hg4,
        if_neg (by simp)]
      cases hcl : cfg.clean <;> cases hnl : cfg.noLaunch <;>
        rcases hmA : cfg.mpMod with _ | mm <;> rcases hmB : cfg.mpStarter with _ | ms <;> rfl
    intro code fs2 tr hcon
    rw [hcon] at hdone
    cases hdone

/-- Witness for c3_mp_pairing_abort: supplying only the multiplayer mod
aborts fatally with the filesystem untouched and an empty trace, while
the paired-or-absent configuration never aborts at this input. -/
theorem c3_mp_pairing_abort_witness :
    mainRun noFail .stopped exCfgMpOnly exFS = .fatal 1 exFS [] ∧
    mainRun noFail .stopped exCfg exFS ≠ .fatal 1 exFS [] :=
  ⟨(c3_mp_pairing_abort noFail .stopped exCfgMpOnly exFS).1 (by decide),
   (c3_mp_pairing_abort noFail .stopped exCfg exFS).2 (by decide) (by decide)
     (by intro h; cases h) 1 exFS []⟩


theorem ite_done_eq3 {c1 c2 : Prop} [Decidable c1] [Decidable c2] {A : FSNode} {B : Nat}
    {t1 t2 t3 tr : List Action}
    (h : (if c1 then t1 else if c2 then t2 else t3) = tr) :
    (if c1 then RunResult.done A B t1
     else if c2 then RunResult.done A B t2 else RunResult.done A B t3) =
      RunResult.done A B tr := by
  by_cases h1 : c1
  · rw [if_pos h1] at h ⊢
    rw [h]
  · rw [if_neg h1] at h ⊢
    by_cases h2 : c2
    · rw [if_pos h2] at h ⊢
      rw [h]
    · rw [if_neg h2] at h ⊢
      rw [h]

/-- Any run of main that passes the three fatal checks ends with the
unconditional copy_item of the primary artifact into the mods directory
and counts it as one more copied item, for every configuration, whatever
the force and clean flags are. -/
theorem mainRun_shape (fail : Fail) (kw : WaitResult) (cfg : Config) (fs : FSNode)
    (ht : pathExists fs cfg.target = true)
    (hg2 : (cfg.mpMod.isSome && cfg.mpStarter.isNone) = false)
    (hg3 : (cfg.mpStarter.isSome && cfg.mpMod.isNone) = false)
    (hg4 : (cfg.useWine && !cfg.wineBinaryFound) = false) :
    ∃ fsMid k, mainRun fail kw cfg fs =
      .done (copyItem fsMid cfg.target cfg.modsDir) (k + 1) (traceExpr cfg kw) := by
  unfold mainRun
  rw [ht, if_neg (by simp), hg2, if_neg (by simp), hg3, if_neg (by simp), hg4,
    if_neg (by simp)]
  dsimp only
  refine ⟨_, _, ite_done_eq3 ?_⟩
  unfold traceExpr
  rfl

/-- Claim C4 (amended): the primary build artifact is copied on every
completed run without consulting the skip-if-exists test or the force
flag, and the total copied count gains one for it.  For a file artifact,
an existing destination file of the same name is overwritten; an existing
destination directory of the same name is NOT replaced -- the artifact is
copied into it under its own name (shutil.copy2 semantics). -/
theorem c4_primary_unconditional (fail : Fail) (kw : WaitResult) (cfg : Config)
    (fs fsM : FSNode) {c : Nat}
    (ht : pathExists fs cfg.target = true)
    (hg2 : (cfg.mpMod.isSome && cfg.mpStarter.isNone) = false)
    (hg3 : (cfg.mpStarter.isSome && cfg.mpMod.isNone) = false)
    (hg4 : (cfg.useWine && !cfg.wineBinaryFound) = false)
    (hlkM : fsM.lookup cfg.target = some (.file c)) :
    (∃ fsMid k, mainRun fail kw cfg fs =
      .done (copyItem fsMid cfg.target cfg.modsDir) (k + 1) (traceExpr cfg kw)) ∧
    (isDirAt fsM (cfg.modsDir ++ [pName cfg.target]) = false →
      (copyItem fsM cfg.target cfg.modsDir).lookup (cfg.modsDir ++ [pName cfg.target]) =
        some (.file c)) ∧
    (isDirAt fsM (cfg.modsDir ++ [pName cfg.target]) = true →
      (copyItem fsM cfg.target cfg.modsDir).lookup
        ((cfg.modsDir ++ [pName cfg.target]) ++ [pName cfg.target]) = some (.file c)) := by
  refine ⟨mainRun_shape fail kw cfg fs ht hg2 hg3 hg4, ?_, ?_⟩
  · intro hd
    rw [copyItem_file_eq hlkM, if_neg (by rw [hd]; simp), lookup_setPath_self]
  · intro hd
    rw [copyItem_file_eq hlkM, if_pos hd, lookup_setPath_self]

/-- Witness for c4_primary_unconditional at the concrete example run. -/
theorem c4_primary_unconditional_witness :
    (∃ fsMid k, mainRun noFail .stopped exCfg exFS =
      .done (copyItem fsMid exCfg.target exCfg.modsDir) (k + 1) (traceExpr exCfg .stopped)) ∧
    (isDirAt exFS (exCfg.modsDir ++ [pName exCfg.target]) = false →
      (copyItem exFS exCfg.target exCfg.modsDir).lookup
        (exCfg.modsDir ++ [pName exCfg.target]) = some (.file 1)) ∧
    (isDirAt exFS (exCfg.modsDir ++ [pName exCfg.target]) = true →
      (copyItem exFS exCfg.target exCfg.modsDir).lookup
        ((exCfg.modsDir ++ [pName exCfg.target]) ++ [pName exCfg.target]) = some (.file 1)) :=
  c4_primary_unconditional noFail .stopped exCfg exFS exFS rfl rfl rfl rfl rfl

/-- Counterexample to claim C4 as stated: with a directory already at the
destination name of the (file) artifact, the directory is not replaced --
it persists, keeps its stale content, and the artifact lands inside it. -/
theorem c4_counterexample :
    isDirAt exFSD ["game", "Mods", "MyMod.dll"] = true ∧
    isDirAt (copyItem exFSD ["build", "MyMod.dll"] ["game", "Mods"])
      ["game", "Mods", "MyMod.dll"] = true ∧
    (copyItem exFSD ["build", "MyMod.dll"] ["game", "Mods"]).lookup
      ["game", "Mods", "MyMod.dll", "MyMod.dll"] = some (.file 1) ∧
    (copyItem exFSD ["build", "MyMod.dll"] ["game", "Mods"]).lookup
      ["game", "Mods", "MyMod.dll", "stale"] = some (.file 7) :=
  ⟨rfl, rfl, rfl, rfl⟩


/-! ## Structured fan-out (claim C5) -/

theorem getEntry_isSome_of_mem {es : Entries} {n : String} {v : FSNode}
    (h : (n, v) ∈ es) : ∃ w, getEntry es n = some w := by
  induction es with
  | nil => cases h
  | cons e L ih =>
      obtain ⟨a, b⟩ := e
      by_cases he : a = n
      · subst he
        exact ⟨b, by unfold getEntry; rw [if_pos (by simp)]⟩
      · have hmem : (n, v) ∈ L := by
          rcases List.mem_cons.mp h with hc | hc
          · rw [Prod.mk.injEq] at hc
            exact absurd hc.1.symm he
          · exact hc
        obtain ⟨w, hw⟩ := ih hmem
        exact ⟨w, by unfold getEntry; rw [if_neg (by simpa using he)]; exact hw⟩

theorem lookup_child_of_mem {fs : FSNode} {q : Path} {n : String} {v : FSNode}
    (h : (n, v) ∈ entriesAt fs q) : ∃ w, fs.lookup (q ++ [n]) = some w := by
  unfold entriesAt at h
  cases hl : fs.lookup q with
  | none => rw [hl] at h; cases h
  | some node =>
      cases node with
      | file c => rw [hl] at h; cases h
      | dir es =>
          rw [hl] at h
          obtain ⟨w, hw⟩ := getEntry_isSome_of_mem h
          refine ⟨w, ?_⟩
          rw [lookup_append, hl]
          simp only [Option.some_bind]
          rw [lookup_dir_cons, hw]
          simp [lookup_nil]

/-- If a name occurs in the iterated item list and its source child is
present when the loop starts, the loop leaves an entry of that name in the
destination directory. -/
theorem foldTreeItems_covers {par srcSub : Path} {m : String} (fail : Fail)
    (hs : OffPar par srcSub) (n : String)
    (hf : fail ((par ++ [m]) ++ [n]) = false) :
    ∀ (L : List (String × FSNode)) (fs : FSNode),
      (fs.lookup (srcSub ++ [n])).isSome = true →
      (∃ v, (n, v) ∈ L) →
      pathExists (L.foldl (fun acc it => copyTreeItem fail acc srcSub (par ++ [m]) it.1) fs)
        ((par ++ [m]) ++ [n]) = true := by
  intro L
  induction L with
  | nil =>
      intro fs _ hv
      obtain ⟨v, hv⟩ := hv
      cases hv
  | cons e L ih =>
      intro fs hlk hv
      rw [List.foldl_cons]
      by_cases he : e.1 = n
      · rw [he]
        obtain ⟨w, hw⟩ := Option.isSome_iff_exists.mp hlk
        have hfirst := copyTreeItem_first (m := m) fail hs hw hf
        exact (stepOK_foldTreeItems fail hs L _).2 _ (snoc2_under par m n) (by simp) hfirst
      · have hstep := stepOK_copyTreeItem (m := m) fail fs hs e.1
        apply ih
        · rw [hstep.1 (srcSub ++ [n]) (hs.extend [n]).1 (hs.extend [n]).2]
          exact hlk
        · obtain ⟨v, hv⟩ := hv
          rcases List.mem_cons.mp hv with hc | hc
          · exfalso
            apply he
            rw [← hc]
          · exact ⟨v, hc⟩

theorem copySubdirItems_covers {par srcSub : Path} {m : String} (fail : Fail)
    (hs : OffPar par srcSub) {n : String} (hf : fail ((par ++ [m]) ++ [n]) = false)
    (fs : FSNode) (hlk : (fs.lookup (srcSub ++ [n])).isSome = true)
    (hv : ∃ v, (n, v) ∈ entriesAt fs srcSub) :
    pathExists (copySubdirItems fail fs srcSub (par ++ [m])) ((par ++ [m]) ++ [n]) = true := by
  unfold copySubdirItems
  exact foldTreeItems_covers fail hs n hf _ fs hlk hv

theorem isUnder_snoc_ne {par : Path} {a b : String} (h : a ≠ b) :
    isUnder (par ++ [a]) (par ++ [b]) = false := by
  cases hh : isUnder (par ++ [a]) (par ++ [b]) with
  | false => rfl
  | true =>
      exfalso
      have heq := isUnder_antisymm hh (by simp)
      apply h
      have h2 := List.append_cancel_left heq
      simpa using h2

/-- Claim C5: copying a structured add-on that carries both a Mods and a
Plugins sub-root places a Mods-root entry inside the destination mods
directory and a Plugins-root entry inside the Plugins directory next to
it: the two destination directories share the same parent and neither
lies below the other. -/
theorem c5_structured_fanout {par p : Path} {mlast : String} {fs : FSNode}
    (hs : OffPar par p) {mn pn fname gname : String} {fnode gnode : FSNode}
    (hfind : findSubdirCI fs p "Mods" = some mn)
    (hpfind : findSubdirCI fs p "Plugins" = some pn)
    (hfmem : (fname, fnode) ∈ entriesAt fs (p ++ [mn]))
    (hgmem : (gname, gnode) ∈ entriesAt fs (p ++ [pn]))
    (hlast : mlast ≠ "Plugins") :
    pathExists (copyStructuredMod noFail fs p (par ++ [mlast]))
        ((par ++ [mlast]) ++ [fname]) = true ∧
    pathExists (copyStructuredMod noFail fs p (par ++ [mlast]))
        ((par ++ ["Plugins"]) ++ [gname]) = true ∧
    (par ++ [mlast]).dropLast = (par ++ ["Plugins"]).dropLast ∧
    isUnder (par ++ [mlast]) (par ++ ["Plugins"]) = false ∧
    isUnder (par ++ ["Plugins"]) (par ++ [mlast]) = false := by
  have hexp : pathExists fs p = true := by
    unfold findSubdirCI at hfind
    cases hl : fs.lookup p with
    | none => rw [hl] at hfind; cases hfind
    | some node => unfold pathExists; rw [hl]; rfl
  refine ⟨?_, ?_, ?_, ?_, ?_⟩
  · have hw1 : pathExists (copySubdirItems noFail fs (p ++ [mn]) (par ++ [mlast]))
        ((par ++ [mlast]) ++ [fname]) = true := by
      refine copySubdirItems_covers (m := mlast) noFail (hs.extend [mn]) rfl fs ?_ ⟨fnode, hfmem⟩
      obtain ⟨w, hw⟩ := lookup_child_of_mem hfmem
      rw [hw]
      rfl
    unfold copyStructuredMod
    rw [dropLast_snoc, hexp, if_neg (by simp), hfind]
    dsimp only
    exact ((stepOK_sibPhase noFail hs "Plugins" _).trans
      (stepOK_sibPhase noFail hs "UserLibs" _)).2 _ (snoc2_under par mlast fname)
      (by simp) hw1
  · unfold copyStructuredMod
    rw [dropLast_snoc, hexp, if_neg (by simp), hfind]
    dsimp only
    have hstep1 : StepOK par fs (copySubdirItems noFail fs (p ++ [mn]) (par ++ [mlast])) :=
      stepOK_copySubdirItems (m := mlast) noFail fs (hs.extend [mn])
    rw [findSubdirCI_congr (hstep1.1 p hs.1 hs.2) "Plugins", hpfind]
    dsimp only
    have hstep01 : StepOK par fs
        (ensureDirAt (copySubdirItems noFail fs (p ++ [mn]) (par ++ [mlast]))
          (par ++ ["Plugins"])) :=
      hstep1.trans (stepOK_ensureDirAt _ (isUnder_append par ["Plugins"]))
    have hw2 : pathExists
        (copySubdirItems noFail
          (ensureDirAt (copySubdirItems noFail fs (p ++ [mn]) (par ++ [mlast]))
            (par ++ ["Plugins"]))
          (p ++ [pn]) (par ++ ["Plugins"]))
        ((par ++ ["Plugins"]) ++ [gname]) = true := by
      refine copySubdirItems_covers (m := "Plugins") noFail (hs.extend [pn]) rfl _ ?_ ?_
      · obtain ⟨w, hw⟩ := lookup_child_of_mem hgmem
        rw [hstep01.1 ((p ++ [pn]) ++ [gname]) ((hs.extend [pn]).extend [gname]).1
          ((hs.extend [pn]).extend [gname]).2, hw]
        rfl
      · rw [entriesAt_snoc_congr (hstep01.1 p hs.1 hs.2) pn]
        exact ⟨gnode, hgmem⟩
    exact (stepOK_sibPhase noFail hs "UserLibs" _).2 _ (snoc2_under par "Plugins" gname)
      (by simp) hw2
  · exact (dropLast_snoc par mlast).trans (dropLast_snoc par "Plugins").symm
  · exact isUnder_snoc_ne hlast
  · exact isUnder_snoc_ne (Ne.symm hlast)

/-- The fan-out law run on the example tree: AddonA's Mods entry Foo.dll
lands in game/Mods while its Plugins entry Bar.dll lands in the sibling
game/Plugins directory. -/
theorem c5_structured_fanout_witness :
    pathExists (copyStructuredMod noFail exFS ["addons", "AddonA"] (["game"] ++ ["Mods"]))
        ((["game"] ++ ["Mods"]) ++ ["Foo.dll"]) = true ∧
    pathExists (copyStructuredMod noFail exFS ["addons", "AddonA"] (["game"] ++ ["Mods"]))
        ((["game"] ++ ["Plugins"]) ++ ["Bar.dll"]) = true ∧
    (["game"] ++ ["Mods"]).dropLast = (["game"] ++ ["Plugins"]).dropLast ∧
    isUnder (["game"] ++ ["Mods"]) (["game"] ++ ["Plugins"]) = false ∧
    isUnder (["game"] ++ ["Plugins"]) (["game"] ++ ["Mods"]) = false :=
  c5_structured_fanout (by decide) rfl rfl
    (by
      have h : entriesAt exFS (["addons", "AddonA"] ++ ["Mods"]) =
          [("Foo.dll", FSNode.file 2)] := rfl
      rw [h]
      exact List.mem_singleton.mpr rfl)
    (by
      have h : entriesAt exFS (["addons", "AddonA"] ++ ["Plugins"]) =
          [("Bar.dll", FSNode.file 3)] := rfl
      rw [h]
      exact List.mem_singleton.mpr rfl)
    (by decide)


/-! ## Missing sources (claim C7) -/

/-- Claim C7: a source path that does not exist at copy time is classified
not-found, copy_mod_item performs no copy for it and reports not-copied,
and the user-mod loop simply drops it, continuing with the remaining
sources exactly as if it had not been listed. -/
theorem c7_missing_source {fs : FSNode} {s : Path} (h : pathExists fs s = false)
    (fail : Fail) (d : Path) (b : Bool) (ms1 ms2 : List Path) (f : Bool) :
    classify fs s = Layout.notFound ∧
    copyModItem fail fs s d b = (fs, false) ∧
    copyUserMods fail fs (ms1 ++ s :: ms2) d f = copyUserMods fail fs (ms1 ++ ms2) d f := by
  refine ⟨?_, ?_, ?_⟩
  · unfold classify
    rw [if_pos (by rw [h]; rfl)]
  · unfold copyModItem
    rw [if_pos (by rw [h]; rfl)]
  · unfold copyUserMods
    simp only [List.filter_append, List.filter_cons, h, Bool.false_eq_true, if_false]

/-- The missing-source law run on the example tree: a nonexistent add-on
path is classified not-found, copy_mod_item leaves the tree unchanged and
reports not-copied, and the user-mod loop result equals the run without
that entry. -/
theorem c7_missing_source_witness :
    classify exFS ["addons", "Missing"] = Layout.notFound ∧
    copyModItem noFail exFS ["addons", "Missing"] ["game", "Mods"] true = (exFS, false) ∧
    copyUserMods noFail exFS ([["addons", "Flat"]] ++ ["addons", "Missing"] :: [])
        ["game", "Mods"] false =
      copyUserMods noFail exFS ([["addons", "Flat"]] ++ []) ["game", "Mods"] false :=
  @c7_missing_source exFS ["addons", "Missing"] rfl noFail ["game", "Mods"] true
    [["addons", "Flat"]] [] false

/-! ## Case-insensitive structure detection (claim C8) -/

theorem findEntryCI_isSome_of_mem {es : Entries} {n : String} {d : Entries}
    (h : (n, FSNode.dir d) ∈ es) {lname : String} (hn : lowerString n = lname) :
    (findEntryCI es lname).isSome = true := by
  induction es with
  | nil => cases h
  | cons e L ih =>
      obtain ⟨a, b⟩ := e
      unfold findEntryCI
      cases b with
      | file c =>
          rw [if_neg (by simp)]
          apply ih
          rcases List.mem_cons.mp h with heq | hmem
          · rw [Prod.mk.injEq] at heq
            exact absurd heq.2 (by simp)
          · exact hmem
      | dir db =>
          by_cases hc : (lowerString a == lname) = true
          · rw [if_pos (by simpa using hc)]
            rfl
          · rw [if_neg (by simpa using hc)]
            apply ih
            rcases List.mem_cons.mp h with heq | hmem
            · exfalso
              apply hc
              rw [Prod.mk.injEq] at heq
              rw [← heq.1, hn]
              simp
            · exact hmem

theorem findEntryCI_sound {es : Entries} {lname n : String}
    (h : findEntryCI es lname = some n) :
    ∃ d, (n, FSNode.dir d) ∈ es ∧ lowerString n = lname := by
  induction es with
  | nil => cases h
  | cons e L ih =>
      obtain ⟨a, b⟩ := e
      unfold findEntryCI at h
      cases b with
      | file c =>
          rw [if_neg (by simp)] at h
          obtain ⟨d, hm, hn⟩ := ih h
          exact ⟨d, List.mem_cons_of_mem _ hm, hn⟩
      | dir db =>
          by_cases hc : (lowerString a == lname) = true
          · rw [if_pos (by simpa using hc)] at h
            cases h
            exact ⟨db, List.mem_cons_self _ _, by simpa using hc⟩
          · rw [if_neg (by simpa using hc)] at h
            obtain ⟨d, hm, hn⟩ := ih h
            exact ⟨d, List.mem_cons_of_mem _ hm, hn⟩

/-- Claim C8: a directory with an immediate subdirectory whose lowercased
name is mods is classified as a structured tree; the recorded mods root is
unique (Option-valued first match), and any recorded root for any needle
is an actual immediate subdirectory entry whose lowercased name matches
the lowercased needle, so a regular file never counts as a root. -/
theorem c8_case_insensitive_mods {fs : FSNode} {p : Path} {es : Entries}
    (hdirp : fs.lookup p = some (FSNode.dir es)) {n0 : String} {d0 : Entries}
    (hmem : (n0, FSNode.dir d0) ∈ es) (hname : lowerString n0 = "mods") :
    classify fs p = Layout.structuredTree ∧
    (∃ n, findSubdirCI fs p "Mods" = some n) ∧
    (∀ name n, findSubdirCI fs p name = some n →
      ∃ d, (n, FSNode.dir d) ∈ es ∧ lowerString n = lowerString name) ∧
    (∀ n1 n2, findSubdirCI fs p "Mods" = some n1 → findSubdirCI fs p "Mods" = some n2 →
      n1 = n2) := by
  have hpe : pathExists fs p = true := by
    unfold pathExists
    rw [hdirp]
    rfl
  have hnf : isFileAt fs p = false := by
    unfold isFileAt
    rw [hdirp]
  have hsome : (findSubdirCI fs p "Mods").isSome = true := by
    unfold findSubdirCI
    rw [hdirp]
    exact findEntryCI_isSome_of_mem hmem (by rw [hname]; rfl)
  have hstr : hasStructureAt fs p = true := by
    unfold hasStructureAt
    rw [hsome]
    rfl
  refine ⟨?_, ?_, ?_, ?_⟩
  · unfold classify
    rw [hpe, hnf, hstr]
    rfl
  · exact Option.isSome_iff_exists.mp hsome
  · intro name n hfs
    unfold findSubdirCI at hfs
    rw [hdirp] at hfs
    exact findEntryCI_sound hfs
  · intro n1 n2 h1 h2
    exact Option.some.inj (h1.symm.trans h2)

/-- The detection law run on the example tree: AddonA's Mods subdirectory
makes it a structured tree with a unique, directory-backed mods root. -/
theorem c8_case_insensitive_mods_witness :
    classify exFS ["addons", "AddonA"] = Layout.structuredTree ∧
    (∃ n, findSubdirCI exFS ["addons", "AddonA"] "Mods" = some n) ∧
    (∀ name n, findSubdirCI exFS ["addons", "AddonA"] name = some n →
      ∃ d, (n, FSNode.dir d) ∈
          [("Mods", FSNode.dir [("Foo.dll", FSNode.file 2)]),
           ("Plugins", FSNode.dir [("Bar.dll", FSNode.file 3)])] ∧
        lowerString n = lowerString name) ∧
    (∀ n1 n2, findSubdirCI exFS ["addons", "AddonA"] "Mods" = some n1 →
      findSubdirCI exFS ["addons", "AddonA"] "Mods" = some n2 → n1 = n2) :=
  c8_case_insensitive_mods rfl (List.mem_cons_self _ _) rfl

/-! ## Structured copies and per-item failures (claim C10) -/

theorem copyStructuredMod_covers {par : Path} {m : String} {fs : FSNode} {s : Path}
    (fail : Fail) (hs : OffPar par s) {mn n : String} {v : FSNode}
    (hfind : findSubdirCI fs s "Mods" = some mn)
    (hmem : (n, v) ∈ entriesAt fs (s ++ [mn]))
    (hf : fail ((par ++ [m]) ++ [n]) = false) :
    pathExists (copyStructuredMod fail fs s (par ++ [m])) ((par ++ [m]) ++ [n]) = true := by
  have hexp : pathExists fs s = true := by
    unfold findSubdirCI at hfind
    cases hl : fs.lookup s with
    | none => rw [hl] at hfind; cases hfind
    | some node => unfold pathExists; rw [hl]; rfl
  have hw1 : pathExists (copySubdirItems fail fs (s ++ [mn]) (par ++ [m]))
      ((par ++ [m]) ++ [n]) = true := by
    refine copySubdirItems_covers (m := m) fail (hs.extend [mn]) hf fs ?_ ⟨v, hmem⟩
    obtain ⟨w, hw⟩ := lookup_child_of_mem hmem
    rw [hw]
    rfl
  unfold copyStructuredMod
  rw [dropLast_snoc, hexp, if_neg (by simp), hfind]
  dsimp only
  exact ((stepOK_sibPhase fail hs "Plugins" _).trans
    (stepOK_sibPhase fail hs "UserLibs" _)).2 _ (snoc2_under par m n)
    (by simp) hw1

/-- Claim C10: once a structured-tree source passes the skip test,
copy_mod_item hands it to copy_structured_mod and returns True no matter
which per-item copies inside the fan-out raise: the returned copied
outcome is the same for every failure oracle, and an item whose own copy
does not raise still lands in the destination even when all others do. -/
theorem c10_structured_failures {fs : FSNode} {par s : Path} {m : String}
    (hs : OffPar par s) {mn n0 : String} {v0 : FSNode}
    (hfind : findSubdirCI fs s "Mods" = some mn)
    (hmem : (n0, v0) ∈ entriesAt fs (s ++ [mn])) (skip : Bool) :
    (∀ (fail : Fail),
      (skip && modsRootBlocked fs s (par ++ [m])) = false →
      copyModItem fail fs s (par ++ [m]) skip
        = (copyStructuredMod fail fs s (par ++ [m]), true)) ∧
    (∀ (fail : Fail), fail ((par ++ [m]) ++ [n0]) = false →
      pathExists (copyStructuredMod fail fs s (par ++ [m])) ((par ++ [m]) ++ [n0]) = true) := by
  have hlkdir : ∃ es, fs.lookup s = some (FSNode.dir es) := by
    unfold findSubdirCI at hfind
    cases hl : fs.lookup s with
    | none => rw [hl] at hfind; cases hfind
    | some node =>
        cases node with
        | file c => rw [hl] at hfind; cases hfind
        | dir es => exact ⟨es, rfl⟩
  obtain ⟨es, hes⟩ := hlkdir
  have hexp : pathExists fs s = true := by
    unfold pathExists
    rw [hes]
    rfl
  have hnf : isFileAt fs s = false := by
    unfold isFileAt
    rw [hes]
  have hstr : hasStructureAt fs s = true := by
    unfold hasStructureAt
    rw [hfind]
    rfl
  constructor
  · intro fail hskip
    unfold copyModItem
    rw [hexp, hnf, hstr, hskip]
    rfl
  · intro fail hf
    exact copyStructuredMod_covers fail hs hfind hmem hf

/-- The failure-independence law run on the example tree: with every
per-item copy raising, copy_mod_item still reports AddonA as copied; with
every copy but Foo.dll raising, Foo.dll still lands in game/Mods. -/
theorem c10_structured_failures_witness :
    copyModItem (fun _ => true) exFS ["addons", "AddonA"] (["game"] ++ ["Mods"]) true
      = (copyStructuredMod (fun _ => true) exFS ["addons", "AddonA"] (["game"] ++ ["Mods"]),
         true) ∧
    pathExists
      (copyStructuredMod (fun q => !(q == ["game", "Mods", "Foo.dll"])) exFS
        ["addons", "AddonA"] (["game"] ++ ["Mods"]))
      ((["game"] ++ ["Mods"]) ++ ["Foo.dll"]) = true :=
  ⟨(@c10_structured_failures exFS ["game"] ["addons", "AddonA"] "Mods" (by decide)
      "Mods" "Foo.dll" (FSNode.file 2) rfl (List.mem_cons_self _ _) true).1
      (fun _ => true) rfl,
   (@c10_structured_failures exFS ["game"] ["addons", "AddonA"] "Mods" (by decide)
      "Mods" "Foo.dll" (FSNode.file 2) rfl (List.mem_cons_self _ _) true).2
      (fun q => !(q == ["game", "Mods", "Foo.dll"])) rfl⟩


/-! ## Termination wait (claim C6) -/

theorem waitLoop_zero (present : Nat → Bool) (k : Nat) :
    waitLoop present k 0 = (WaitResult.stillRunning, k) := rfl

theorem waitLoop_succ (present : Nat → Bool) (k f : Nat) :
    waitLoop present k (f + 1)
      = if present k then waitLoop present (k + 1) f else (WaitResult.stopped, k) := rfl

theorem waitLoop_none {present : Nat → Bool} (hnone : ∀ j, present j = false)
    (k : Nat) {fuel : Nat} (hf : 0 < fuel) :
    waitLoop present k fuel = (WaitResult.stopped, k) := by
  cases fuel with
  | zero => exact absurd hf (lt_irrefl 0)
  | succ f =>
      rw [waitLoop_succ, hnone k]
      rfl

theorem waitLoop_all {present : Nat → Bool} (hall : ∀ j, present j = true) :
    ∀ (fuel k : Nat), waitLoop present k fuel = (WaitResult.stillRunning, k + fuel) := by
  intro fuel
  induction fuel with
  | zero =>
      intro k
      rw [waitLoop_zero, Nat.add_zero]
  | succ f ih =>
      intro k
      rw [waitLoop_succ, hall k, if_pos rfl, ih (k + 1)]
      rw [Prod.mk.injEq]
      exact ⟨rfl, by omega⟩

theorem waitLoop_stopped_iff {present : Nat → Bool} :
    ∀ (fuel k : Nat), (waitLoop present k fuel).1 = WaitResult.stopped ↔
      ∃ j, j < fuel ∧ present (k + j) = false := by
  intro fuel
  induction fuel with
  | zero =>
      intro k
      rw [waitLoop_zero]
      constructor
      · intro h
        cases h
      · rintro ⟨j, hj, _⟩
        exact absurd hj (by omega)
  | succ f ih =>
      intro k
      rw [waitLoop_succ]
      cases hp : present k with
      | false =>
          rw [if_neg (by simp)]
          constructor
          · intro _
            exact ⟨0, by omega, by rw [Nat.add_zero]; exact hp⟩
          · intro _
            rfl
      | true =>
          rw [if_pos rfl, ih (k + 1)]
          constructor
          · rintro ⟨j, hj, hpj⟩
            refine ⟨j + 1, by omega, ?_⟩
            rw [show k + (j + 1) = k + 1 + j by omega]
            exact hpj
          · rintro ⟨j, hj, hpj⟩
            cases j with
            | zero =>
                rw [Nat.add_zero] at hpj
                rw [hp] at hpj
                cases hpj
            | succ i =>
                refine ⟨i, by omega, ?_⟩
                rw [show k + 1 + i = k + (i + 1) by omega]
                exact hpj

theorem waitLoop_idx_le {present : Nat → Bool} :
    ∀ (fuel k : Nat), (waitLoop present k fuel).2 ≤ k + fuel := by
  intro fuel
  induction fuel with
  | zero =>
      intro k
      rw [waitLoop_zero]
      omega
  | succ f ih =>
      intro k
      rw [waitLoop_succ]
      cases hp : present k with
      | true =>
          rw [if_pos rfl]
          have h := ih (k + 1)
          omega
      | false =>
          rw [if_neg (by simp)]
          omega

theorem pollLimit_iff {w : Rat} (j : Nat) :
    j < pollLimit w ↔ (j : Rat) < 5 * (w + 2) := by
  unfold pollLimit
  rw [Int.lt_toNat, Int.lt_ceil]
  constructor
  · intro h
    exact_mod_cast h
  · intro h
    exact_mod_cast h

theorem mainRun_wait_irrelevant (fail : Fail) (cfg : Config) (fs : FSNode)
    (k1 k2 : WaitResult) :
    (mainRun fail k1 cfg fs).isDone = (mainRun fail k2 cfg fs).isDone ∧
    (mainRun fail k1 cfg fs).fsOf = (mainRun fail k2 cfg fs).fsOf ∧
    (mainRun fail k1 cfg fs).copiedOf = (mainRun fail k2 cfg fs).copiedOf := by
  unfold mainRun
  cases h1 : pathExists fs cfg.target <;>
    cases hw : cfg.useWine <;>
      cases hwb : cfg.wineBinaryFound <;>
        cases hnl : cfg.noLaunch <;>
          rcases hmA : cfg.mpMod with _ | mm <;>
            rcases hmB : cfg.mpStarter with _ | ms <;>
              exact ⟨rfl, rfl, rfl⟩

/-- Claim C6: the post-termination wait polls at 0.2 s steps strictly
below the deadline wait_seconds + 2.0 (5*(w+2) polls); with the process
never detected it succeeds at poll 0 without sleeping, with it always
detected it times out after the full budget; it stops early exactly when
some poll within the budget misses the process; and the wait outcome
never changes whether main completes, the final tree, or the copied
count -- a still-running process only alters the recorded kill action. -/
theorem c6_termination_wait {w : Rat} (h0 : 0 ≤ w) (present : Nat → Bool)
    (fail : Fail) (cfg : Config) (fs : FSNode) (k2 : WaitResult) :
    ((∀ j, present j = false) → waitForExit present w = (WaitResult.stopped, 0)) ∧
    ((∀ j, present j = true)
      → waitForExit present w = (WaitResult.stillRunning, pollLimit w)) ∧
    ((waitForExit present w).1 = WaitResult.stopped ↔
      ∃ j, j < pollLimit w ∧ present j = false) ∧
    (waitForExit present w).2 ≤ pollLimit w ∧
    (∀ j : Nat, j < pollLimit w ↔ (j : Rat) < 5 * (w + 2)) ∧
    ((fullRun fail present cfg fs).isDone = (mainRun fail k2 cfg fs).isDone ∧
     (fullRun fail present cfg fs).fsOf = (mainRun fail k2 cfg fs).fsOf ∧
     (fullRun fail present cfg fs).copiedOf = (mainRun fail k2 cfg fs).copiedOf) := by
  have hpos : 0 < pollLimit w := by
    rw [pollLimit_iff 0]
    push_cast
    linarith
  refine ⟨?_, ?_, ?_, ?_, fun j => pollLimit_iff j, ?_⟩
  · intro hnone
    unfold waitForExit
    exact waitLoop_none hnone 0 hpos
  · intro hall
    unfold waitForExit
    rw [waitLoop_all hall (pollLimit w) 0]
    rw [Prod.mk.injEq]
    exact ⟨rfl, by omega⟩
  · unfold waitForExit
    rw [waitLoop_stopped_iff (pollLimit w) 0]
    constructor
    · rintro ⟨j, hj, hpj⟩
      rw [Nat.zero_add] at hpj
      exact ⟨j, hj, hpj⟩
    · rintro ⟨j, hj, hpj⟩
      refine ⟨j, hj, ?_⟩
      rw [Nat.zero_add]
      exact hpj
  · unfold waitForExit
    have h := @waitLoop_idx_le present (pollLimit w) 0
    omega
  · unfold fullRun
    exact mainRun_wait_irrelevant fail cfg fs _ k2

/-- The wait law run concretely: with the process never detected the wait
reports success at poll 0, and a still-running wait outcome leaves the
completed example run with the same tree and count as a stopped one. -/
theorem c6_termination_wait_witness :
    waitForExit (fun _ => false) 1 = (WaitResult.stopped, 0) ∧
    (fullRun noFail (fun _ => false) exCfg exFS).isDone
      = (mainRun noFail WaitResult.stillRunning exCfg exFS).isDone ∧
    (fullRun noFail (fun _ => false) exCfg exFS).fsOf
      = (mainRun noFail WaitResult.stillRunning exCfg exFS).fsOf ∧
    (fullRun noFail (fun _ => false) exCfg exFS).copiedOf
      = (mainRun noFail WaitResult.stillRunning exCfg exFS).copiedOf := by
  have h := @c6_termination_wait 1 (by decide) (fun _ => false) noFail exCfg exFS
    WaitResult.stillRunning
  exact ⟨h.1 (fun _ => rfl), h.2.2.2.2.2⟩


/-! ## Lazy sibling creation (claim C9) -/

theorem KeepsAbsent.kaRefl (q : Path) (fs : FSNode) : KeepsAbsent q fs fs :=
  fun h => h

theorem KeepsAbsent.kaTrans {q : Path} {f1 f2 f3 : FSNode}
    (h1 : KeepsAbsent q f1 f2) (h2 : KeepsAbsent q f2 f3) : KeepsAbsent q f1 f3 :=
  fun h => h2 (h1 h)

theorem isUnder_append_false_left {p q : Path} (h : isUnder p q = false) (t : Path) :
    isUnder (p ++ t) q = false := by
  cases hh : isUnder (p ++ t) q with
  | false => rfl
  | true =>
      rw [isUnder_trans (isUnder_append p t) hh] at h
      cases h

theorem isUnder_append_false_of_le {q p : Path} (hlen : q.length ≤ p.length)
    (h : isUnder q p = false) (t : Path) : isUnder q (p ++ t) = false := by
  cases hh : isUnder q (p ++ t) with
  | false => rfl
  | true =>
      exfalso
      obtain ⟨u, hu⟩ := isUnder_iff_exists.mp hh
      have hq : isUnder q p = true := by
        refine isUnder_iff_exists.mpr ⟨p.drop q.length, ?_⟩
        have hx1 : q = (p ++ t).take q.length := by
          rw [hu, List.take_left]
        have hx2 : (p ++ t).take q.length = p.take q.length :=
          List.take_append_of_le_length hlen
        have htake : p.take q.length = q := by
          rw [← hx2, ← hx1]
        calc p = p.take q.length ++ p.drop q.length := (List.take_append_drop _ _).symm
          _ = q ++ p.drop q.length := by rw [htake]
      rw [hq] at h
      cases h

theorem pathExists_removePath_mono (fs : FSNode) (p q : Path) :
    pathExists (fs.removePath p) q = true → pathExists fs q = true := by
  rcases removePath_shape fs p q with h | h | ⟨es, es2, h1, h2⟩
  · unfold pathExists
    rw [h]
    exact id
  · unfold pathExists
    rw [h]
    intro hc
    cases hc
  · unfold pathExists
    rw [h1, h2]
    intro _
    rfl

theorem keepsAbsent_setPath {q p : Path} (h1 : isUnder p q = false)
    (h2 : isUnder q p = false) (fs v : FSNode) : KeepsAbsent q fs (fs.setPath p v) := by
  intro h
  unfold pathExists at h ⊢
  rw [lookup_setPath_off fs v h1 h2]
  exact h

theorem keepsAbsent_removePath (q p : Path) (fs : FSNode) :
    KeepsAbsent q fs (fs.removePath p) := by
  intro h
  cases hx : pathExists (fs.removePath p) q with
  | false => rfl
  | true =>
      have hc := pathExists_removePath_mono fs p q hx
      rw [h] at hc
      cases hc

theorem keepsAbsent_write_sib {par : Path} {sib x : String} (hx : x ≠ sib) {w : Path}
    (hw : isUnder (par ++ [x]) w = true) (fs v : FSNode) :
    KeepsAbsent (par ++ [sib]) fs (fs.setPath w v) := by
  obtain ⟨t, rfl⟩ := isUnder_iff_exists.mp hw
  exact keepsAbsent_setPath
    (isUnder_append_false_left (isUnder_snoc_ne hx) t)
    (isUnder_append_false_of_le (by simp) (isUnder_snoc_ne (Ne.symm hx)) t) fs v

theorem keepsAbsent_ensureDirAt {par : Path} {sib x : String} (hx : x ≠ sib) {t : Path}
    (ht : isUnder (par ++ [x]) t = true) (fs : FSNode) :
    KeepsAbsent (par ++ [sib]) fs (ensureDirAt fs t) := by
  unfold ensureDirAt
  by_cases hex : pathExists fs t = true
  · rw [if_pos hex]
    exact KeepsAbsent.kaRefl _ _
  · rw [if_neg hex]
    exact keepsAbsent_write_sib hx ht fs _

theorem keepsAbsent_shCopy2 {par : Path} {sib x : String} (hx : x ≠ sib) {src dst : Path}
    (hdst : isUnder (par ++ [x]) dst = true) (fs : FSNode) :
    KeepsAbsent (par ++ [sib]) fs (shCopy2 fs src dst) := by
  unfold shCopy2
  cases hlk : fs.lookup src with
  | none => exact KeepsAbsent.kaRefl _ _
  | some n =>
      dsimp only
      by_cases hd : isDirAt fs dst = true
      · rw [if_pos hd]
        exact keepsAbsent_write_sib hx (isUnder_trans hdst (isUnder_append dst [pName src])) fs n
      · rw [if_neg hd]
        exact keepsAbsent_write_sib hx hdst fs n

theorem keepsAbsent_copytreeAt {par : Path} {sib x : String} (hx : x ≠ sib) {dst : Path}
    (hdst : isUnder (par ++ [x]) dst = true) (fs : FSNode) (src : Path) :
    KeepsAbsent (par ++ [sib]) fs (copytreeAt fs src dst) := by
  unfold copytreeAt
  cases hlk : fs.lookup src with
  | none => exact KeepsAbsent.kaRefl _ _
  | some n => exact keepsAbsent_write_sib hx hdst fs n

theorem keepsAbsent_copyTreeItem {par : Path} {sib x : String} (hx : x ≠ sib)
    {srcSub dstDir : Path} (hdst : isUnder (par ++ [x]) dstDir = true) (fail : Fail)
    (fs : FSNode) (n : String) :
    KeepsAbsent (par ++ [sib]) fs (copyTreeItem fail fs srcSub dstDir n) := by
  unfold copyTreeItem
  by_cases hf : fail (dstDir ++ [n]) = true
  · rw [if_pos hf]
    exact KeepsAbsent.kaRefl _ _
  · rw [if_neg hf]
    have hdn : isUnder (par ++ [x]) (dstDir ++ [n]) = true :=
      isUnder_trans hdst (isUnder_append dstDir [n])
    cases hlk : fs.lookup (srcSub ++ [n]) with
    | none => exact KeepsAbsent.kaRefl _ _
    | some node =>
        cases node with
        | file c => exact keepsAbsent_shCopy2 hx hdn fs
        | dir es =>
            dsimp only
            by_cases hex : pathExists fs (dstDir ++ [n]) = true
            · rw [if_pos hex]
              by_cases hfile : isFileAt fs (dstDir ++ [n]) = true
              · rw [if_pos hfile]
                exact KeepsAbsent.kaRefl _ _
              · rw [if_neg hfile]
                exact (keepsAbsent_removePath _ _ fs).kaTrans
                  (keepsAbsent_copytreeAt hx hdn _ _)
            · rw [if_neg hex]
              exact keepsAbsent_copytreeAt hx hdn fs _

theorem keepsAbsent_copySubdirItems {par : Path} {sib x : String} (hx : x ≠ sib)
    {dstDir : Path} (hdst : isUnder (par ++ [x]) dstDir = true) (fail : Fail)
    {srcSub : Path} (fs : FSNode) :
    KeepsAbsent (par ++ [sib]) fs (copySubdirItems fail fs srcSub dstDir) := by
  unfold copySubdirItems
  have hfold : ∀ (L : Entries) (g : FSNode), KeepsAbsent (par ++ [sib]) g
      (L.foldl (fun acc it => copyTreeItem fail acc srcSub dstDir it.1) g) := by
    intro L
    induction L with
    | nil =>
        intro g
        exact KeepsAbsent.kaRefl _ _
    | cons e L ih =>
        intro g
        rw [List.foldl_cons]
        exact (keepsAbsent_copyTreeItem hx hdst fail g e.1).kaTrans (ih _)
  exact hfold _ fs

theorem sibPhase_none {s par : Path} {sib2 : String} (fail : Fail) {g : FSNode}
    (h : findSubdirCI g s sib2 = none) : sibPhase fail s par sib2 g = g := by
  unfold sibPhase
  rw [h]

theorem keepsAbsent_sibPhase {par s : Path} {sib x : String} (hx : x ≠ sib) (fail : Fail)
    (g : FSNode) : KeepsAbsent (par ++ [sib]) g (sibPhase fail s par x g) := by
  unfold sibPhase
  cases findSubdirCI g s x with
  | none => exact KeepsAbsent.kaRefl _ _
  | some n =>
      exact (keepsAbsent_ensureDirAt hx (isUnder_refl _) g).kaTrans
        (keepsAbsent_copySubdirItems hx (isUnder_refl _) fail _)

theorem keepsAbsent_copyStructuredMod {par s : Path} {m sib : String} (fail : Fail)
    (hms : m ≠ sib) (hsib : sib = "Plugins" ∨ sib = "UserLibs") (hs : OffPar par s)
    (fs : FSNode) (hnone : findSubdirCI fs s sib = none) :
    KeepsAbsent (par ++ [sib]) fs (copyStructuredMod fail fs s (par ++ [m])) := by
  unfold copyStructuredMod
  rw [dropLast_snoc]
  by_cases hex : pathExists fs s = true
  · rw [hex, if_neg (by simp)]
    have hph1 : KeepsAbsent (par ++ [sib]) fs
        (match findSubdirCI fs s "Mods" with
          | some n => copySubdirItems fail fs (s ++ [n]) (par ++ [m])
          | none => fs) := by
      cases findSubdirCI fs s "Mods" with
      | none => exact KeepsAbsent.kaRefl _ _
      | some n => exact keepsAbsent_copySubdirItems hms (isUnder_refl _) fail fs
    have hst1 : StepOK par fs
        (match findSubdirCI fs s "Mods" with
          | some n => copySubdirItems fail fs (s ++ [n]) (par ++ [m])
          | none => fs) := stepOK_modsPhase fail hs fs
    have hp23 : ∀ g : FSNode, StepOK par fs g → KeepsAbsent (par ++ [sib]) g
        (sibPhase fail s par "UserLibs" (sibPhase fail s par "Plugins" g)) := by
      intro g hg
      have hg2 : findSubdirCI g s sib = none := by
        rw [findSubdirCI_congr (hg.1 s hs.1 hs.2) sib]
        exact hnone
      rcases hsib with hsP | hsU
      · subst hsP
        rw [sibPhase_none fail hg2]
        exact keepsAbsent_sibPhase (by decide) fail g
      · subst hsU
        have hstP : StepOK par g (sibPhase fail s par "Plugins" g) := by
          unfold sibPhase
          exact stepOK_sibPhase fail hs "Plugins" g
        have h3 : sibPhase fail s par "UserLibs" (sibPhase fail s par "Plugins" g)
            = sibPhase fail s par "Plugins" g := by
          refine sibPhase_none fail ?_
          rw [findSubdirCI_congr (hstP.1 s hs.1 hs.2) "UserLibs"]
          exact hg2
        rw [h3]
        exact keepsAbsent_sibPhase (by decide) fail g
    exact hph1.kaTrans (hp23 _ hst1)
  · rw [Bool.not_eq_true] at hex
    rw [hex, if_pos (by simp)]
    exact KeepsAbsent.kaRefl _ _


theorem cleanModsDir_frame {par : Path} {m : String} (fail : Fail) (g : FSNode) {t : Path}
    (h1 : isUnder par t = false) (h2 : isUnder t par = false) :
    (cleanModsDir fail g (par ++ [m])).lookup t = g.lookup t := by
  unfold cleanModsDir
  by_cases hex : (!(pathExists g (par ++ [m]))) = true
  · rw [if_pos hex]
  · rw [if_neg hex]
    have hfold : ∀ (L : Entries) (g2 : FSNode),
        (L.foldl (fun acc it => if fail ((par ++ [m]) ++ [it.1]) then acc
          else acc.removePath ((par ++ [m]) ++ [it.1])) g2).lookup t = g2.lookup t := by
      intro L
      induction L with
      | nil =>
          intro g2
          rfl
      | cons e L ih =>
          intro g2
          rw [List.foldl_cons, ih _]
          by_cases hf : fail ((par ++ [m]) ++ [e.1]) = true
          · rw [if_pos hf]
          · rw [if_neg hf]
            obtain ⟨ha, hb⟩ := offPar_of_write (snoc2_under par m e.1) h1 h2
            exact lookup_removePath_off g2 ha hb
    exact hfold _ g

theorem keepsAbsent_cleanModsDir (q : Path) (fail : Fail) (fs : FSNode) (p : Path) :
    KeepsAbsent q fs (cleanModsDir fail fs p) := by
  unfold cleanModsDir
  by_cases hex : (!(pathExists fs p)) = true
  · rw [if_pos hex]
    exact KeepsAbsent.kaRefl _ _
  · rw [if_neg hex]
    have hfold : ∀ (L : Entries) (g : FSNode), KeepsAbsent q g
        (L.foldl (fun acc it => if fail (p ++ [it.1]) then acc
          else acc.removePath (p ++ [it.1])) g) := by
      intro L
      induction L with
      | nil =>
          intro g
          exact KeepsAbsent.kaRefl _ _
      | cons e L ih =>
          intro g
          rw [List.foldl_cons]
          refine KeepsAbsent.kaTrans ?_ (ih _)
          by_cases hf : fail (p ++ [e.1]) = true
          · rw [if_pos hf]
            exact KeepsAbsent.kaRefl _ _
          · rw [if_neg hf]
            exact keepsAbsent_removePath _ _ _
    exact hfold _ fs

theorem keepsAbsent_copyModItem {par s : Path} {m sib : String} (fail : Fail)
    (hms : m ≠ sib) (hsib : sib = "Plugins" ∨ sib = "UserLibs") (hs : OffPar par s)
    (fs : FSNode) (hnone : findSubdirCI fs s sib = none) (skip : Bool) :
    KeepsAbsent (par ++ [sib]) fs (copyModItem fail fs s (par ++ [m]) skip).1 := by
  unfold copyModItem
  by_cases hex : pathExists fs s = true
  · rw [hex, if_neg (by simp)]
    by_cases hfile : isFileAt fs s = true
    · rw [if_pos hfile]
      by_cases hskip : (skip && pathExists fs ((par ++ [m]) ++ [pName s])) = true
      · rw [if_pos hskip]
        exact KeepsAbsent.kaRefl _ _
      · rw [if_neg hskip]
        by_cases hfl : fail ((par ++ [m]) ++ [pName s]) = true
        · rw [if_pos hfl]
          exact KeepsAbsent.kaRefl _ _
        · rw [if_neg hfl]
          exact keepsAbsent_shCopy2 hms (isUnder_append _ _) fs
    · rw [if_neg hfile]
      by_cases hstr : hasStructureAt fs s = true
      · rw [if_pos hstr]
        by_cases hskip : (skip && modsRootBlocked fs s (par ++ [m])) = true
        · rw [if_pos hskip]
          exact KeepsAbsent.kaRefl _ _
        · rw [if_neg hskip]
          exact keepsAbsent_copyStructuredMod fail hms hsib hs fs hnone
      · rw [if_neg hstr]
        by_cases hskip : (skip && pathExists fs ((par ++ [m]) ++ [pName s])) = true
        · rw [if_pos hskip]
          exact KeepsAbsent.kaRefl _ _
        · rw [if_neg hskip]
          by_cases htex : pathExists fs ((par ++ [m]) ++ [pName s]) = true
          · by_cases htf : isFileAt fs ((par ++ [m]) ++ [pName s]) = true
            · rw [if_pos (by rw [htex, htf]; rfl)]
              exact KeepsAbsent.kaRefl _ _
            · rw [if_neg (by rw [htex]; simpa using htf)]
              by_cases hfl : fail ((par ++ [m]) ++ [pName s]) = true
              · rw [if_pos hfl]
                exact KeepsAbsent.kaRefl _ _
              · rw [if_neg hfl, if_pos htex]
                exact (keepsAbsent_removePath _ _ fs).kaTrans
                  (keepsAbsent_copytreeAt hms (isUnder_append _ _) _ _)
          · have htex2 : pathExists fs ((par ++ [m]) ++ [pName s]) = false := by
              rw [Bool.not_eq_true] at htex
              exact htex
            rw [if_neg (by rw [htex2]; simp)]
            by_cases hfl : fail ((par ++ [m]) ++ [pName s]) = true
            · rw [if_pos hfl]
              exact KeepsAbsent.kaRefl _ _
            · rw [if_neg hfl, if_neg htex]
              exact keepsAbsent_copytreeAt hms (isUnder_append _ _) fs _
  · rw [Bool.not_eq_true] at hex
    rw [hex, if_pos (by simp)]
    exact KeepsAbsent.kaRefl _ _

theorem keepsAbsent_foldUserMods {par : Path} {m sib : String} (fail : Fail)
    (hms : m ≠ sib) (hsib : sib = "Plugins" ∨ sib = "UserLibs") (force : Bool) :
    ∀ (L : List Path), (∀ s ∈ L, OffPar par s) → ∀ (acc : FSNode × Nat),
      (∀ s ∈ L, findSubdirCI acc.1 s sib = none) →
      KeepsAbsent (par ++ [sib]) acc.1
        (L.foldl (fun acc p =>
          let r := copyModItem fail acc.1 p (par ++ [m]) (!force)
          (r.1, acc.2 + (if r.2 then 1 else 0))) acc).1 := by
  intro L
  induction L with
  | nil =>
      intro _ acc _
      exact KeepsAbsent.kaRefl _ _
  | cons p L ih =>
      intro hL acc hN
      rw [List.foldl_cons]
      have hstep : StepOK par acc.1 (copyModItem fail acc.1 p (par ++ [m]) (!force)).1 :=
        stepOK_copyModItem fail acc.1 (hL p (by simp)) (!force)
      refine (keepsAbsent_copyModItem fail hms hsib (hL p (by simp)) acc.1
        (hN p (by simp)) (!force)).kaTrans ?_
      refine ih (fun s hsm => hL s (by simp [hsm]))
        ((copyModItem fail acc.1 p (par ++ [m]) (!force)).1,
          acc.2 + (if (copyModItem fail acc.1 p (par ++ [m]) (!force)).2 then 1 else 0)) ?_
      intro s hsm
      dsimp only
      have hsO := hL s (by simp [hsm])
      rw [findSubdirCI_congr (hstep.1 s hsO.1 hsO.2) sib]
      exact hN s (by simp [hsm])

theorem keepsAbsent_copyUserMods {par : Path} {m sib : String} (fail : Fail)
    (hms : m ≠ sib) (hsib : sib = "Plugins" ∨ sib = "UserLibs") (fs : FSNode)
    {L : List Path} (hL : ∀ s ∈ L, OffPar par s)
    (hN : ∀ s ∈ L, findSubdirCI fs s sib = none) (force : Bool) :
    KeepsAbsent (par ++ [sib]) fs (copyUserMods fail fs L (par ++ [m]) force).1 := by
  unfold copyUserMods
  exact keepsAbsent_foldUserMods fail hms hsib force (L.filter fun p => pathExists fs p)
    (fun s hsm => hL s (List.mem_of_mem_filter hsm)) (fs, 0)
    (fun s hsm => hN s (List.mem_of_mem_filter hsm))

theorem keepsAbsent_copyMultiplayerMods {par : Path} {m sib : String} (fail : Fail)
    (hms : m ≠ sib) (hsib : sib = "Plugins" ∨ sib = "UserLibs") (fs : FSNode)
    {mm ms : Path} (hmm : OffPar par mm) (hN : findSubdirCI fs mm sib = none)
    (hname : pName ms ≠ sib) (force : Bool) :
    KeepsAbsent (par ++ [sib]) fs (copyMultiplayerMods fail fs mm ms (par ++ [m]) force).1 := by
  unfold copyMultiplayerMods
  rw [dropLast_snoc]
  have h1 : KeepsAbsent (par ++ [sib]) fs (if pathExists fs mm = true then
      ((copyModItem fail fs mm (par ++ [m]) (!force)).1,
        if (copyModItem fail fs mm (par ++ [m]) (!force)).2 then 1 else 0)
    else (fs, 0)).1 := by
    by_cases hex : pathExists fs mm = true
    · rw [if_pos hex]
      exact keepsAbsent_copyModItem fail hms hsib hmm fs hN (!force)
    · rw [if_neg hex]
      exact KeepsAbsent.kaRefl _ _
  have hgen : ∀ (st : FSNode × Nat), KeepsAbsent (par ++ [sib]) fs st.1 →
      KeepsAbsent (par ++ [sib]) fs (if pathExists st.1 ms = true then
        (if (!(pathExists st.1 (par ++ [pName ms])) || force) = true then
          (if fail (par ++ [pName ms]) = true then st
           else (shCopy2 st.1 ms (par ++ [pName ms]), st.2 + 1))
         else st)
       else st).1 := by
    intro st hst
    by_cases hA : pathExists st.1 ms = true
    · rw [if_pos hA]
      by_cases hB : (!(pathExists st.1 (par ++ [pName ms])) || force) = true
      · rw [if_pos hB]
        by_cases hC : fail (par ++ [pName ms]) = true
        · rw [if_pos hC]
          exact hst
        · rw [if_neg hC]
          exact hst.kaTrans (keepsAbsent_shCopy2 hname (isUnder_refl _) st.1)
      · rw [if_neg hB]
        exact hst
    · rw [if_neg hA]
      exact hst
  exact hgen _ h1

theorem keepsAbsent_copyOptLib {par : Path} {m sib : String} (fail : Fail)
    (hms : m ≠ sib) (hsib : sib = "Plugins" ∨ sib = "UserLibs") (st : FSNode × Nat)
    {p? : Option Path} (hp : ∀ p ∈ p?.toList, OffPar par p)
    (hN : ∀ p ∈ p?.toList, findSubdirCI st.1 p sib = none) (force : Bool) :
    KeepsAbsent (par ++ [sib]) st.1 (copyOptLib fail st p? (par ++ [m]) force).1 := by
  unfold copyOptLib
  cases p? with
  | none => exact KeepsAbsent.kaRefl _ _
  | some p =>
      exact keepsAbsent_copyModItem fail hms hsib (hp p (by simp)) st.1
        (hN p (by simp)) (!force)

theorem keepsAbsent_copyLibraryMods {par : Path} {m sib : String} (fail : Fail)
    (hms : m ≠ sib) (hsib : sib = "Plugins" ∨ sib = "UserLibs") (fs : FSNode)
    {s1 ue : Option Path} (h1 : ∀ p ∈ s1.toList, OffPar par p)
    (hN1 : ∀ p ∈ s1.toList, findSubdirCI fs p sib = none)
    (h2 : ∀ p ∈ ue.toList, OffPar par p)
    (hN2 : ∀ p ∈ ue.toList, findSubdirCI fs p sib = none) (force : Bool) :
    KeepsAbsent (par ++ [sib]) fs (copyLibraryMods fail fs s1 ue (par ++ [m]) force).1 := by
  unfold copyLibraryMods
  have hst1 : StepOK par fs (copyOptLib fail (fs, 0) s1 (par ++ [m]) force).1 :=
    stepOK_copyOptLib fail (fs, 0) h1 force
  refine (keepsAbsent_copyOptLib fail hms hsib (fs, 0) h1 hN1 force).kaTrans ?_
  refine keepsAbsent_copyOptLib fail hms hsib _ h2 ?_ force
  intro p hp
  have hO := h2 p hp
  rw [findSubdirCI_congr (hst1.1 p hO.1 hO.2) sib]
  exact hN2 p hp

theorem keepsAbsent_copyItem {par : Path} {m sib : String} (hms : m ≠ sib) (fs : FSNode)
    (src : Path) : KeepsAbsent (par ++ [sib]) fs (copyItem fs src (par ++ [m])) := by
  unfold copyItem
  by_cases hd : isDirAt fs src = true
  · rw [if_pos hd]
    refine KeepsAbsent.kaTrans ?_ (keepsAbsent_copytreeAt hms (isUnder_append _ _) _ _)
    by_cases hex : pathExists fs ((par ++ [m]) ++ [pName src]) = true
    · rw [if_pos hex]
      exact keepsAbsent_removePath _ _ _
    · rw [if_neg hex]
      exact KeepsAbsent.kaRefl _ _
  · rw [if_neg hd]
    exact keepsAbsent_shCopy2 hms (isUnder_append _ _) fs

theorem fsOf_ite3 {c1 c2 : Prop} [Decidable c1] [Decidable c2] {a : FSNode} {k : Nat}
    {t1 t2 t3 : List Action} :
    ((if c1 then RunResult.done a k t1 else if c2 then RunResult.done a k t2
      else RunResult.done a k t3) : RunResult).fsOf = a := by
  by_cases h1 : c1
  · rw [if_pos h1]
    rfl
  · rw [if_neg h1]
    by_cases h2 : c2
    · rw [if_pos h2]
      rfl
    · rw [if_neg h2]
      rfl


/-- Claim C9: lazy sibling creation.  On any run -- completed or fatal --
whose add-on sources (user mods, multiplayer mod, library mods) have no
sub-root named like the sibling directory and whose starter script does
not carry its name, a Plugins or UserLibs sibling of the mods directory
that is absent before the run is still absent after it: the pipeline
creates the sibling only to populate it. -/
theorem c9_lazy_sibling {par : Path} {m sib : String} (fail : Fail) (kw : WaitResult)
    (cfg : Config) (fs : FSNode)
    (hmd : cfg.modsDir = par ++ [m])
    (hms : m ≠ sib)
    (hsib : sib = "Plugins" ∨ sib = "UserLibs")
    (hsrc : ∀ s ∈ addonSources cfg, OffPar par s ∧ findSubdirCI fs s sib = none)
    (hstart : ∀ t, cfg.mpStarter = some t → pName t ≠ sib)
    (habs : pathExists fs (par ++ [sib]) = false) :
    pathExists ((mainRun fail kw cfg fs).fsOf) (par ++ [sib]) = false ∧
    isDirAt ((mainRun fail kw cfg fs).fsOf) (par ++ [sib]) = false := by
  have hMmods : ∀ s ∈ cfg.mods, s ∈ addonSources cfg := by
    intro s hsm
    simp only [addonSources, List.mem_append]
    exact Or.inl (Or.inl (Or.inl hsm))
  have hModsOff : ∀ s ∈ cfg.mods, OffPar par s := fun s hsm =>
    (hsrc s (hMmods s hsm)).1
  have hModsN : ∀ s ∈ cfg.mods, findSubdirCI fs s sib = none := fun s hsm =>
    (hsrc s (hMmods s hsm)).2
  have hS1mem : ∀ p ∈ cfg.s1apiPath.toList, p ∈ addonSources cfg := by
    intro p hp
    simp only [addonSources, List.mem_append]
    exact Or.inl (Or.inr hp)
  have hUEmem : ∀ p ∈ cfg.unityExplorerPath.toList, p ∈ addonSources cfg := by
    intro p hp
    simp only [addonSources, List.mem_append]
    exact Or.inr hp
  have hKA : KeepsAbsent (par ++ [sib]) fs ((mainRun fail kw cfg fs).fsOf) := by
    unfold mainRun
    by_cases h1 : (!(pathExists fs cfg.target)) = true
    · rw [if_pos h1]
      exact KeepsAbsent.kaRefl _ _
    rw [if_neg h1]
    by_cases h2 : (cfg.mpMod.isSome && cfg.mpStarter.isNone) = true
    · rw [if_pos h2]
      exact KeepsAbsent.kaRefl _ _
    rw [if_neg h2]
    by_cases h3 : (cfg.mpStarter.isSome && cfg.mpMod.isNone) = true
    · rw [if_pos h3]
      exact KeepsAbsent.kaRefl _ _
    rw [if_neg h3]
    by_cases h4 : (cfg.useWine && !cfg.wineBinaryFound) = true
    · rw [if_pos h4]
      exact KeepsAbsent.kaRefl _ _
    rw [if_neg h4]
    dsimp only
    rw [hmd]
    rcases hmA : cfg.mpMod with _ | mm <;> rcases hmB : cfg.mpStarter with _ | ms
    · rw [fsOf_ite3]
      dsimp only
      generalize hg : (if cfg.clean = true
          then cleanModsDir fail (ensureDirAt fs (par ++ [m])) (par ++ [m])
          else ensureDirAt fs (par ++ [m])) = B
      have hKB : KeepsAbsent (par ++ [sib]) fs B := by
        rw [← hg]
        by_cases hcl : cfg.clean = true
        · rw [if_pos hcl]
          exact (keepsAbsent_ensureDirAt hms (isUnder_refl _) fs).kaTrans
            (keepsAbsent_cleanModsDir _ fail _ _)
        · rw [if_neg hcl]
          exact keepsAbsent_ensureDirAt hms (isUnder_refl _) fs
      have hFB : ∀ {t : Path}, isUnder par t = false → isUnder t par = false →
          B.lookup t = fs.lookup t := by
        intro t u1 u2
        rw [← hg]
        by_cases hcl : cfg.clean = true
        · rw [if_pos hcl, cleanModsDir_frame fail _ u1 u2]
          exact (stepOK_ensureDirAt fs (isUnder_append par [m])).1 t u1 u2
        · rw [if_neg hcl]
          exact (stepOK_ensureDirAt fs (isUnder_append par [m])).1 t u1 u2
      generalize hr1 : (copyUserMods fail B cfg.mods (par ++ [m]) cfg.forceCopy).1 = R1
      have hK1 : KeepsAbsent (par ++ [sib]) B R1 := by
        rw [← hr1]
        refine keepsAbsent_copyUserMods fail hms hsib B hModsOff ?_ cfg.forceCopy
        intro s hsm
        have hO := hModsOff s hsm
        rw [findSubdirCI_congr (hFB hO.1 hO.2) sib]
        exact hModsN s hsm
      have hF1 : ∀ {t : Path}, isUnder par t = false → isUnder t par = false →
          R1.lookup t = fs.lookup t := by
        intro t u1 u2
        rw [← hr1]
        rw [(stepOK_copyUserMods fail B hModsOff cfg.forceCopy).1 t u1 u2]
        exact hFB u1 u2
      generalize hr3 : (copyLibraryMods fail R1 cfg.s1apiPath cfg.unityExplorerPath
          (par ++ [m]) cfg.forceCopy).1 = R3
      have hK3 : KeepsAbsent (par ++ [sib]) R1 R3 := by
        rw [← hr3]
        refine keepsAbsent_copyLibraryMods fail hms hsib R1
          (fun p hp => (hsrc p (hS1mem p hp)).1) ?_
          (fun p hp => (hsrc p (hUEmem p hp)).1) ?_ cfg.forceCopy
        · intro p hp
          have hO := (hsrc p (hS1mem p hp)).1
          rw [findSubdirCI_congr (hF1 hO.1 hO.2) sib]
          exact (hsrc p (hS1mem p hp)).2
        · intro p hp
          have hO := (hsrc p (hUEmem p hp)).1
          rw [findSubdirCI_congr (hF1 hO.1 hO.2) sib]
          exact (hsrc p (hUEmem p hp)).2
      exact (hKB.kaTrans (hK1.kaTrans hK3)).kaTrans (keepsAbsent_copyItem hms R3 cfg.target)
    · simp [hmA, hmB] at h3
    · simp [hmA, hmB] at h2
    · rw [fsOf_ite3]
      dsimp only
      generalize hg : (if cfg.clean = true
          then cleanModsDir fail (ensureDirAt fs (par ++ [m])) (par ++ [m])
          else ensureDirAt fs (par ++ [m])) = B
      have hKB : KeepsAbsent (par ++ [sib]) fs B := by
        rw [← hg]
        by_cases hcl : cfg.clean = true
        · rw [if_pos hcl]
          exact (keepsAbsent_ensureDirAt hms (isUnder_refl _) fs).kaTrans
            (keepsAbsent_cleanModsDir _ fail _ _)
        · rw [if_neg hcl]
          exact keepsAbsent_ensureDirAt hms (isUnder_refl _) fs
      have hFB : ∀ {t : Path}, isUnder par t = false → isUnder t par = false →
          B.lookup t = fs.lookup t := by
        intro t u1 u2
        rw [← hg]
        by_cases hcl : cfg.clean = true
        · rw [if_pos hcl, cleanModsDir_frame fail _ u1 u2]
          exact (stepOK_ensureDirAt fs (isUnder_append par [m])).1 t u1 u2
        · rw [if_neg hcl]
          exact (stepOK_ensureDirAt fs (isUnder_append par [m])).1 t u1 u2
      generalize hr1 : (copyUserMods fail B cfg.mods (par ++ [m]) cfg.forceCopy).1 = R1
      have hK1 : KeepsAbsent (par ++ [sib]) B R1 := by
        rw [← hr1]
        refine keepsAbsent_copyUserMods fail hms hsib B hModsOff ?_ cfg.forceCopy
        intro s hsm
        have hO := hModsOff s hsm
        rw [findSubdirCI_congr (hFB hO.1 hO.2) sib]
        exact hModsN s hsm
      have hF1 : ∀ {t : Path}, isUnder par t = false → isUnder t par = false →
          R1.lookup t = fs.lookup t := by
        intro t u1 u2
        rw [← hr1]
        rw [(stepOK_copyUserMods fail B hModsOff cfg.forceCopy).1 t u1 u2]
        exact hFB u1 u2
      have hMmem : mm ∈ addonSources cfg := by
        simp only [addonSources, List.mem_append]
        refine Or.inl (Or.inl (Or.inr ?_))
        rw [hmA]
        exact List.mem_singleton.mpr rfl
      have hOmm : OffPar par mm := (hsrc mm hMmem).1
      generalize hr2 : (copyMultiplayerMods fail R1 mm ms (par ++ [m]) cfg.forceCopy).1 = R2
      have hK2 : KeepsAbsent (par ++ [sib]) R1 R2 := by
        rw [← hr2]
        refine keepsAbsent_copyMultiplayerMods fail hms hsib R1 hOmm ?_
          (hstart ms hmB) cfg.forceCopy
        rw [findSubdirCI_congr (hF1 hOmm.1 hOmm.2) sib]
        exact (hsrc mm hMmem).2
      have hF2 : ∀ {t : Path}, isUnder par t = false → isUnder t par = false →
          R2.lookup t = fs.lookup t := by
        intro t u1 u2
        rw [← hr2]
        rw [(stepOK_copyMultiplayerMods fail R1 hOmm cfg.forceCopy).1 t u1 u2]
        exact hF1 u1 u2
      generalize hr3 : (copyLibraryMods fail R2 cfg.s1apiPath cfg.unityExplorerPath
          (par ++ [m]) cfg.forceCopy).1 = R3
      have hK3 : KeepsAbsent (par ++ [sib]) R2 R3 := by
        rw [← hr3]
        refine keepsAbsent_copyLibraryMods fail hms hsib R2
          (fun p hp => (hsrc p (hS1mem p hp)).1) ?_
          (fun p hp => (hsrc p (hUEmem p hp)).1) ?_ cfg.forceCopy
        · intro p hp
          have hO := (hsrc p (hS1mem p hp)).1
          rw [findSubdirCI_congr (hF2 hO.1 hO.2) sib]
          exact (hsrc p (hS1mem p hp)).2
        · intro p hp
          have hO := (hsrc p (hUEmem p hp)).1
          rw [findSubdirCI_congr (hF2 hO.1 hO.2) sib]
          exact (hsrc p (hUEmem p hp)).2
      exact ((hKB.kaTrans hK1).kaTrans (hK2.kaTrans hK3)).kaTrans
        (keepsAbsent_copyItem hms R3 cfg.target)
  refine ⟨hKA habs, ?_⟩
  cases hd : isDirAt ((mainRun fail kw cfg fs).fsOf) (par ++ [sib]) with
  | false => rfl
  | true =>
      exfalso
      obtain ⟨es2, hlk⟩ := isDirAt_iff_lookup.mp hd
      have hpe : pathExists ((mainRun fail kw cfg fs).fsOf) (par ++ [sib]) = true := by
        unfold pathExists
        rw [hlk]
        rfl
      rw [hKA habs] at hpe
      cases hpe

/-- The lazy-creation law run on the example tree: no source of the
example configuration has a UserLibs sub-root, so the run leaves
game/UserLibs nonexistent. -/
theorem c9_lazy_sibling_witness :
    pathExists ((mainRun noFail WaitResult.stopped exCfg exFS).fsOf)
      (["game"] ++ ["UserLibs"]) = false ∧
    isDirAt ((mainRun noFail WaitResult.stopped exCfg exFS).fsOf)
      (["game"] ++ ["UserLibs"]) = false :=
  @c9_lazy_sibling ["game"] "Mods" "UserLibs" noFail WaitResult.stopped exCfg exFS rfl
    (by decide) (Or.inr rfl) (by decide) (fun t h => nomatch h) rfl

end PostBuild
